import Mathlib

/-!
# Verification of `toolkit/recordreplay/Assembler.cpp`

A shallow embedding of the x64 instruction emitter (`Assembler`) and of the
trampoline generator (`BindFunctionArgument`).

Modelling conventions.

* Memory is byte addressed: a function from addresses to byte values.  The
  emitter writes through raw pointers, so a write is a write to memory whether
  or not the address lies inside the caller's buffer.
* Pointers are natural numbers.  The operations are modelled with exact
  addition.  On the machine a pointer has 64 bits and the sum wraps around;
  `Advance64` is `Advance` with that wrap-around, and the two are the same
  function whenever `cursor + size + 15` stays below `2 ^ 64`
  (`Advance64_eq_Advance`).  Every caller in the file advances by at most 10.
* The target is x64, which stores multi-byte values least significant byte
  first; `store16` and `store64` model the two `reinterpret_cast` stores.
* `MOZ_RELEASE_ASSERT` failure and `MOZ_CRASH` terminate the process.  They are
  modelled by `Outcome.abort`, which keeps the state reached at that moment.
-/

namespace mozilla
namespace recordreplay

/-! ## Memory -/

/-- Byte addressed memory: the byte stored at each address. -/
abbrev Memory := Nat → Nat

/-- The store `p[0] = v` of one byte through a `uint8_t*` with address `a`. -/
def Memory.write (m : Memory) (a v : Nat) : Memory :=
  fun x => if x = a then v else m x

/-- Consecutive one byte stores starting at address `a`. -/
def Memory.writeBytes (m : Memory) (a : Nat) : List Nat → Memory
  | [] => m
  | b :: bs => Memory.writeBytes (m.write a b) (a + 1) bs

/-- The `n` bytes found in memory from address `a` on. -/
def Memory.readBytes (m : Memory) (a : Nat) : Nat → List Nat
  | 0 => []
  | n + 1 => m a :: Memory.readBytes m (a + 1) n

/-- The store `*reinterpret_cast<uint16_t*>(p) = v` on a little-endian target. -/
def Memory.store16 (m : Memory) (a v : Nat) : Memory :=
  (m.write a (v % 256)).write (a + 1) (v / 256 % 256)

/-- The bytes of a 64-bit value, least significant first. -/
def bytes64 (v : Nat) : List Nat :=
  [v % 256, v / 256 % 256, v / 256 ^ 2 % 256, v / 256 ^ 3 % 256,
   v / 256 ^ 4 % 256, v / 256 ^ 5 % 256, v / 256 ^ 6 % 256, v / 256 ^ 7 % 256]

/-- The store `*reinterpret_cast<void**>(p) = v` on a little-endian target. -/
def Memory.store64 (m : Memory) (a v : Nat) : Memory :=
  m.writeBytes a (bytes64 v)

/-- The value of a byte sequence read as a little-endian integer. -/
def littleEndian : List Nat → Nat
  | [] => 0
  | b :: bs => b + 256 * littleEndian bs

/-- Conversion of an `int` argument to `uint8_t`. -/
def toUint8 (i : Int) : Nat := (i % 256).toNat

/-- Conversion of a `size_t` to `uint16_t`. -/
def toUint16 (n : Nat) : Nat := n % 2 ^ 16

/-! ## Emitter state and outcomes -/

/-- The emitter: `mCursor` and `mCursorEnd` of the class, together with the
memory the two pointers point into. -/
structure Assembler where
  mem : Memory
  mCursor : Nat
  mCursorEnd : Nat

/-- The constructor `Assembler(aStorage, aSize)` over memory `mem`. -/
def Assembler.init (mem : Memory) (aStorage aSize : Nat) : Assembler :=
  { mem := mem, mCursor := aStorage, mCursorEnd := aStorage + aSize }

/-- Result of running an operation: it returns normally with a value and a
state, or the process is aborted in the state it had reached. -/
inductive Outcome (α : Type) where
  | done (val : α) (s : Assembler)
  | abort (s : Assembler)

/-- Sequencing: an abort stops everything after it. -/
def Outcome.bind {α β : Type} (o : Outcome α) (f : α → Assembler → Outcome β) : Outcome β :=
  match o with
  | Outcome.done a s => f a s
  | Outcome.abort s => Outcome.abort s

/-- The state an outcome ends in, whether it returned or aborted. -/
def Outcome.state {α : Type} : Outcome α → Assembler
  | Outcome.done _ s => s
  | Outcome.abort s => s

/-- Whether the operation returned normally. -/
def Outcome.completes {α : Type} : Outcome α → Bool
  | Outcome.done _ _ => true
  | Outcome.abort _ => false

/-! ## Registers -/

/-- Modelled from the spec: the `Register` enumeration of `Assembler.h`, which
is not among the sources.  The sixteen general purpose registers, a low group
of eight followed by an extended group of eight, listed in the order of their
hardware numbers. -/
inductive Register where
  | RAX | RCX | RDX | RBX | RSP | RBP | RSI | RDI
  | R8 | R9 | R10 | R11 | R12 | R13 | R14 | R15
  deriving DecidableEq

/-- Modelled from the spec: the ordinal of an enumerator, `(int)aRegister`. -/
def Register.ord : Register → Nat
  | .RAX => 0 | .RCX => 1 | .RDX => 2 | .RBX => 3
  | .RSP => 4 | .RBP => 5 | .RSI => 6 | .RDI => 7
  | .R8 => 8 | .R9 => 9 | .R10 => 10 | .R11 => 11
  | .R12 => 12 | .R13 => 13 | .R14 => 14 | .R15 => 15

/-! ## The emitter operations -/

/-- The maximum byte length of an x86/x64 instruction. -/
def MaximumInstructionLength : Nat := 15

/-- `Assembler::Advance`: move the cursor, then assert the margin.  The sums
are exact; this is the function the machine computes as long as they stay
inside the address space (see `Advance64`). -/
def Advance (aSize : Nat) (s : Assembler) : Outcome Unit :=
  let s1 := { s with mCursor := s.mCursor + aSize }
  if s1.mCursor + MaximumInstructionLength ≤ s1.mCursorEnd then Outcome.done () s1
  else Outcome.abort s1

/-- `Assembler::Advance` as the 64-bit machine runs it: `mCursor += aSize`
adds a `size_t` to a 64-bit pointer, and so does
`mCursor + MaximumInstructionLength`; both sums wrap around modulo `2 ^ 64`. -/
def Advance64 (aSize : Nat) (s : Assembler) : Outcome Unit :=
  let s1 := { s with mCursor := (s.mCursor + aSize) % 2 ^ 64 }
  if (s1.mCursor + MaximumInstructionLength) % 2 ^ 64 ≤ s1.mCursorEnd then Outcome.done () s1
  else Outcome.abort s1

/-- `Assembler::Current`. -/
def Current (s : Assembler) : Nat := s.mCursor

/-- Modelled from the spec: `Assembler::NewInstruction` of `Assembler.h`, which
is not among the sources.  It stores the given bytes, each converted to
`uint8_t`, at the cursor and then advances the cursor by their number. -/
def NewInstruction (aBytes : List Int) (s : Assembler) : Outcome Unit :=
  let ip := Current s
  Advance aBytes.length { s with mem := s.mem.writeBytes ip (aBytes.map toUint8) }

/-- `Assembler::Push16`. -/
def Push16 (aValue : Nat) (s : Assembler) : Outcome Unit :=
  let ip := Current s
  let m0 := s.mem.write ip 0x66
  let m1 := m0.write (ip + 1) 0x68
  let m2 := m1.store16 (ip + 2) (toUint16 aValue)
  Advance 4 { s with mem := m2 }

/-- `Assembler::Return`. -/
def Return (s : Assembler) : Outcome Unit := NewInstruction [0xC3] s

/-- `Assembler::Breakpoint`. -/
def Breakpoint (s : Assembler) : Outcome Unit := NewInstruction [0xCC] s

/-- `Assembler::PushRax`. -/
def PushRax (s : Assembler) : Outcome Unit := NewInstruction [0x50] s

/-- `Assembler::PopRax`. -/
def PopRax (s : Assembler) : Outcome Unit := NewInstruction [0x58] s

/-- `Assembler::PushImmediate`: four 16-bit pushes, most significant first. -/
def PushImmediate (aValue : Nat) (s : Assembler) : Outcome Unit :=
  let nvalue := aValue % 2 ^ 64
  (Push16 (nvalue >>> 48) s).bind fun _ s1 =>
  (Push16 (nvalue >>> 32) s1).bind fun _ s2 =>
  (Push16 (nvalue >>> 16) s2).bind fun _ s3 =>
  Push16 nvalue s3

/-- `Assembler::Jump`. -/
def Jump (aTarget : Nat) (s : Assembler) : Outcome Unit :=
  (PushImmediate aTarget s).bind fun _ s1 => Return s1

/-- The arguments `Assembler::PopRegister` hands to `NewInstruction`. -/
def PopRegisterArgs (aRegister : Register) : List Int :=
  if aRegister.ord ≤ Register.RDI.ord then
    [0x58 + (aRegister.ord : Int) - (Register.RAX.ord : Int)]
  else
    [0x41, 0x58 + (aRegister.ord : Int) - (Register.R8.ord : Int)]

/-- `Assembler::PopRegister`. -/
def PopRegister (aRegister : Register) (s : Assembler) : Outcome Unit :=
  NewInstruction (PopRegisterArgs aRegister) s

/-- `Assembler::MoveImmediateToRax`. -/
def MoveImmediateToRax (aValue : Nat) (s : Assembler) : Outcome Unit :=
  let ip := Current s
  let m0 := s.mem.write ip (0x40 ||| (1 <<< 3))
  let m1 := m0.write (ip + 1) 0xB8
  let m2 := m1.store64 (ip + 2) aValue
  Advance 10 { s with mem := m2 }

/-- The arguments `Assembler::MoveRaxToRegister` hands to `NewInstruction`. -/
def MoveRaxToRegisterArgs (aRegister : Register) : List Int :=
  if aRegister.ord ≤ Register.RDI.ord then
    [0x48, 0x89, 0xC0 + (aRegister.ord : Int) - (Register.RAX.ord : Int)]
  else
    [0x49, 0x89, 0xC0 + (aRegister.ord : Int) - (Register.R8.ord : Int)]

/-- `Assembler::MoveRaxToRegister`. -/
def MoveRaxToRegister (aRegister : Register) (s : Assembler) : Outcome Unit :=
  NewInstruction (MoveRaxToRegisterArgs aRegister) s

/-- The arguments `Assembler::MoveRegisterToRax` hands to `NewInstruction`. -/
def MoveRegisterToRaxArgs (aRegister : Register) : List Int :=
  if aRegister.ord ≤ Register.RDI.ord then
    [0x48, 0x89, 0xC0 + ((aRegister.ord : Int) - (Register.RAX.ord : Int)) * 8]
  else
    [0x4C, 0x89, 0xC0 + ((aRegister.ord : Int) - (Register.R8.ord : Int)) * 8]

/-- `Assembler::MoveRegisterToRax`. -/
def MoveRegisterToRax (aRegister : Register) (s : Assembler) : Outcome Unit :=
  NewInstruction (MoveRegisterToRaxArgs aRegister) s

/-- The `switch` of `BindFunctionArgument` over the argument position. -/
def BindFunctionArgument.moveArgument (aArgumentPosition : Nat) (s : Assembler) : Outcome Unit :=
  match aArgumentPosition with
  | 1 => MoveRaxToRegister Register.RSI s
  | 2 => MoveRaxToRegister Register.RDX s
  | 3 => MoveRaxToRegister Register.RCX s
  | _ => Outcome.abort s

/-- `BindFunctionArgument`: the trampoline generator. -/
def BindFunctionArgument (aFunction aArgument aArgumentPosition : Nat) (s : Assembler) :
    Outcome Nat :=
  let res := Current s
  (MoveImmediateToRax aArgument s).bind fun _ s1 =>
  (BindFunctionArgument.moveArgument aArgumentPosition s1).bind fun _ s2 =>
  (Jump aFunction s2).bind fun _ s3 =>
  Outcome.done res s3

/-! ## The architecture: encodings, and the instructions a trampoline is made of

These definitions are not taken from the program.  They state what the x64
architecture says, so that the bytes the program emits can be compared with
it. -/

/-- The REX prefix `0100WRXB` with `W = 1` and `X = 0`. -/
def rexW (r b : Bool) : Nat :=
  0x48 + (if r then 4 else 0) + (if b then 1 else 0)

/-- The ModRM byte: `mod` in bits 7..6, `reg` in bits 5..3, `rm` in bits 2..0. -/
def modRM (mod reg rm : Nat) : Nat := mod * 64 + reg * 8 + rm

/-- The architecture's encoding of the 64-bit register move `dst := src`
with opcode `0x89`: the source goes into `reg` (extended by REX.R), the
destination into `rm` (extended by REX.B), registers by hardware number. -/
def encodeMov64 (dst src : Nat) : List Nat :=
  [rexW (decide (8 ≤ src)) (decide (8 ≤ dst)), 0x89, modRM 3 (src % 8) (dst % 8)]

/-- The part of the processor state the emitted code touches: instruction
pointer, stack pointer, the general purpose registers by hardware number, and
the memory holding the stack.  The stack pointer is kept in `rsp`, apart from
`regs`. -/
structure Cpu where
  rip : Nat
  rsp : Nat
  regs : Nat → Nat
  stack : Memory

/-- The instructions the emitted trampoline consists of. -/
inductive Instr where
  | movImm64 (dst imm : Nat)
  | mov64 (dst src : Nat)
  | push16 (lo hi : Nat)
  | ret

/-- Decoder for the four instruction forms: `C3`; `66 68 iw`;
`REX.W B8+rd io`; `REX.W 89 /r` with `mod = 3`.  It returns the instruction
and the bytes that follow it. -/
def decode : List Nat → Option (Instr × List Nat)
  | [] => none
  | b0 :: t0 =>
    if b0 = 0xC3 then some (Instr.ret, t0)
    else
      match t0 with
      | [] => none
      | b1 :: t1 =>
        if b0 = 0x66 ∧ b1 = 0x68 then
          match t1 with
          | lo :: hi :: t => some (Instr.push16 lo hi, t)
          | _ => none
        else if b0 / 8 = 9 then
          if b1 / 8 = 23 then
            match t1 with
            | i0 :: i1 :: i2 :: i3 :: i4 :: i5 :: i6 :: i7 :: t =>
              some (Instr.movImm64 (b1 % 8 + 8 * (b0 % 2))
                (littleEndian [i0, i1, i2, i3, i4, i5, i6, i7]), t)
            | _ => none
          else if b1 = 0x89 then
            match t1 with
            | m :: t =>
              if m / 64 = 3 then
                some (Instr.mov64 (m % 8 + 8 * (b0 % 2)) (m / 8 % 8 + 8 * (b0 / 4 % 2)), t)
              else none
            | _ => none
          else none
        else none

/-- Effect of one instruction.  A 16-bit push moves the stack pointer down by
two and stores the value least significant byte first; a return pops eight
bytes into the instruction pointer. -/
def Cpu.step (c : Cpu) : Instr → Cpu
  | Instr.movImm64 dst imm => { c with regs := fun r => if r = dst then imm else c.regs r }
  | Instr.mov64 dst src => { c with regs := fun r => if r = dst then c.regs src else c.regs r }
  | Instr.push16 lo hi =>
    let sp := (2 ^ 64 - 2 + c.rsp) % 2 ^ 64
    { c with rsp := sp, stack := (c.stack.write sp lo).write ((sp + 1) % 2 ^ 64) hi }
  | Instr.ret =>
    { c with
      rip := littleEndian ((List.range 8).map fun i => c.stack ((c.rsp + i) % 2 ^ 64))
      rsp := (c.rsp + 8) % 2 ^ 64 }

/-- Execution of straight-line code up to and including its first return.
The code bytes are given apart from the stack memory.  `none` when the bytes
do not decode or end before a return. -/
def Cpu.run : Nat → List Nat → Cpu → Option Cpu
  | 0, _, _ => none
  | fuel + 1, code, c =>
    match decode code with
    | none => none
    | some (Instr.ret, _) => some (c.step Instr.ret)
    | some (i, rest) => Cpu.run fuel rest (c.step i)

/-- Execution of a code sequence; one unit of fuel per byte is enough. -/
def Cpu.exec (code : List Nat) (c : Cpu) : Option Cpu := Cpu.run code.length code c

/-- The register the x64 System V calling convention assigns to the integer
argument at a position counted from zero. -/
def argumentRegister : Nat → Option Register
  | 0 => some Register.RDI
  | 1 => some Register.RSI
  | 2 => some Register.RDX
  | 3 => some Register.RCX
  | 4 => some Register.R8
  | 5 => some Register.R9
  | _ => none

/-! ## Auxiliary definitions used to state and prove the properties -/

/-- Store a byte sequence at the cursor, then advance by its length: the common
shape of every primitive of the emitter. -/
def emit (bs : List Nat) (s : Assembler) : Outcome Unit :=
  Advance bs.length { s with mem := s.mem.writeBytes s.mCursor bs }

/-- The 16-bit chunk number `k` of a value: bits `16 * k + 15 .. 16 * k`. -/
def chunk16 (v k : Nat) : Nat := v / 2 ^ (16 * k) % 2 ^ 16

/-- The four bytes of a 16-bit push of the chunk `w`. -/
def push16Bytes (w : Nat) : List Nat := [0x66, 0x68, w % 256, w / 256]

/-- The sixteen bytes of the four 16-bit pushes of a value, most significant
chunk first. -/
def pushImmediateBytes (v : Nat) : List Nat :=
  push16Bytes (chunk16 v 3) ++ push16Bytes (chunk16 v 2) ++ push16Bytes (chunk16 v 1) ++
    push16Bytes (chunk16 v 0)

/-- The thirty bytes of a trampoline: load of `v`, move with ModRM byte `m`,
pushes of the chunks of `f`, return. -/
def trampolineBytes (f v m : Nat) : List Nat :=
  (0x48 :: 0xB8 :: bytes64 v) ++ [0x48, 0x89, m] ++ (pushImmediateBytes f ++ [0xC3])

/-- The offset of a register in its group: its ordinal minus the ordinal of
the first register of the group. -/
def Register.groupOffset (r : Register) : Nat :=
  if r.ord ≤ Register.RDI.ord then r.ord - Register.RAX.ord else r.ord - Register.R8.ord

/-- The scenario of the specification: an emitter over a 64-byte buffer at
address 4096 in a memory filled with the sentinel byte `0xAA`. -/
def sentinelEmitter : Assembler := Assembler.init (fun _ => 0xAA) 4096 64

/-- A processor state about to enter a trampoline: the first four argument
registers hold 11, 22, 33, 44 (RDI, RSI, RDX, RCX), the stack pointer is 8192. -/
def callerCpu : Cpu :=
  { rip := 4096, rsp := 8192,
    regs := fun r => if r = 7 then 11 else if r = 6 then 22 else if r = 2 then 33
      else if r = 1 then 44 else 0,
    stack := fun _ => 0 }

/-- The register an instruction names as its destination, by hardware number;
a push and a return name none. -/
def Instr.dest : Instr → Option Nat
  | Instr.movImm64 dst _ => some dst
  | Instr.mov64 dst _ => some dst
  | Instr.push16 _ _ => none
  | Instr.ret => none

/-- The instructions a whole byte sequence decodes into; `none` when some
part of it does not decode. -/
def decodeAll : Nat → List Nat → Option (List Instr)
  | 0, _ => none
  | _ + 1, [] => some []
  | fuel + 1, b :: bs =>
    match decode (b :: bs) with
    | none => none
    | some (i, rest) => (decodeAll fuel rest).map fun is => i :: is

/-- What every operation of the emitter guarantees about the outcome `o` it
produces from the state `s`: the cursor has not moved back, the end pointer is
the same, a normal return leaves the margin of one maximal instruction, and,
when the margin was there at the start, no byte at or beyond the end pointer
has changed. -/
def Safe {α : Type} (s : Assembler) (o : Outcome α) : Prop :=
  s.mCursor ≤ o.state.mCursor ∧ o.state.mCursorEnd = s.mCursorEnd ∧
  (o.completes = true → o.state.mCursor + 15 ≤ o.state.mCursorEnd) ∧
  (s.mCursor + 15 ≤ s.mCursorEnd → ∀ a, s.mCursorEnd ≤ a → o.state.mem a = s.mem a)

/-- An emitter freshly constructed over a buffer of `size` bytes at address
4096, in a memory filled with the sentinel byte `0xAA`. -/
def freshEmitter (size : Nat) : Assembler := Assembler.init (fun _ => 0xAA) 4096 size

/-! ## Lemmas about memory -/

theorem Memory.write_same (m : Memory) (a v : Nat) : m.write a v a = v := by
  simp [Memory.write]

theorem Memory.write_other (m : Memory) (a v x : Nat) (h : x ≠ a) : m.write a v x = m x := by
  simp [Memory.write, h]

theorem Memory.writeBytes_outside (bs : List Nat) :
    ∀ (m : Memory) (a x : Nat), x < a ∨ a + bs.length ≤ x → m.writeBytes a bs x = m x := by
  induction bs with
  | nil => intro m a x _; rfl
  | cons b bs ih =>
    intro m a x h
    have hx : x ≠ a := by
      rcases h with h | h
      · omega
      · simp only [List.length_cons] at h; omega
    have h2 : x < a + 1 ∨ a + 1 + bs.length ≤ x := by
      rcases h with h | h
      · left; omega
      · right; simp only [List.length_cons] at h; omega
    rw [Memory.writeBytes, ih _ _ _ h2, Memory.write_other _ _ _ _ hx]

theorem Memory.writeBytes_append (b1 : List Nat) :
    ∀ (m : Memory) (a : Nat) (b2 : List Nat),
      m.writeBytes a (b1 ++ b2) = (m.writeBytes a b1).writeBytes (a + b1.length) b2 := by
  induction b1 with
  | nil => intro m a b2; rfl
  | cons b bs ih =>
    intro m a b2
    have e : a + (bs.length + 1) = a + 1 + bs.length := by omega
    rw [List.cons_append, Memory.writeBytes, Memory.writeBytes, List.length_cons, e]
    exact ih _ _ _

theorem Memory.readBytes_length (m : Memory) (n : Nat) :
    ∀ a, (m.readBytes a n).length = n := by
  induction n with
  | zero => intro a; rfl
  | succ n ih => intro a; simp [Memory.readBytes, ih]

theorem Memory.readBytes_congr (m1 m2 : Memory) (n : Nat) :
    ∀ a, (∀ x, a ≤ x → x < a + n → m1 x = m2 x) → m1.readBytes a n = m2.readBytes a n := by
  induction n with
  | zero => intro a _; rfl
  | succ n ih =>
    intro a h
    simp only [Memory.readBytes]
    rw [h a (le_refl a) (by omega), ih (a + 1) (fun x h1 h2 => h x (by omega) (by omega))]

theorem Memory.readBytes_append (m : Memory) (n k : Nat) :
    ∀ a, m.readBytes a (n + k) = m.readBytes a n ++ m.readBytes (a + n) k := by
  induction n with
  | zero => intro a; simp [Memory.readBytes]
  | succ n ih =>
    intro a
    have e : n + 1 + k = (n + k) + 1 := by omega
    rw [e]
    simp only [Memory.readBytes, List.cons_append]
    rw [ih (a + 1)]
    have e2 : a + 1 + n = a + (n + 1) := by omega
    rw [e2]

theorem Memory.readBytes_writeBytes (bs : List Nat) :
    ∀ (m : Memory) (a : Nat), (m.writeBytes a bs).readBytes a bs.length = bs := by
  induction bs with
  | nil => intro m a; rfl
  | cons b bs ih =>
    intro m a
    simp only [Memory.writeBytes, List.length_cons, Memory.readBytes]
    rw [ih, Memory.writeBytes_outside bs _ _ _ (Or.inl (Nat.lt_succ_self a)),
      Memory.write_same]

/-- Reading a part of what `writeBytes` stored: the bytes after the first `b1`. -/
theorem Memory.readBytes_writeBytes_mid (b1 b2 b3 : List Nat) (m : Memory) (a : Nat) :
    (m.writeBytes a (b1 ++ b2 ++ b3)).readBytes (a + b1.length) b2.length = b2 := by
  rw [Memory.writeBytes_append, Memory.writeBytes_append]
  rw [Memory.readBytes_congr _ ((m.writeBytes a b1).writeBytes (a + b1.length) b2)]
  · exact Memory.readBytes_writeBytes b2 _ _
  · intro x h1 h2
    apply Memory.writeBytes_outside
    left
    simp only [List.length_append]
    omega

/-! ## Lemmas about outcomes and `emit` -/

theorem Advance_completes (n : Nat) (s : Assembler) :
    (Advance n s).completes = decide (s.mCursor + n + 15 ≤ s.mCursorEnd) := by
  unfold Advance MaximumInstructionLength
  by_cases h : s.mCursor + n + 15 ≤ s.mCursorEnd <;> simp [h, Outcome.completes]

theorem Advance_state (n : Nat) (s : Assembler) :
    (Advance n s).state = { s with mCursor := s.mCursor + n } := by
  unfold Advance MaximumInstructionLength
  by_cases h : s.mCursor + n + 15 ≤ s.mCursorEnd <;> simp [h, Outcome.state]

theorem emit_completes (bs : List Nat) (s : Assembler) :
    (emit bs s).completes = decide (s.mCursor + bs.length + 15 ≤ s.mCursorEnd) := by
  simp [emit, Advance_completes]

theorem emit_state (bs : List Nat) (s : Assembler) :
    (emit bs s).state =
      { mem := s.mem.writeBytes s.mCursor bs, mCursor := s.mCursor + bs.length,
        mCursorEnd := s.mCursorEnd } := by
  simp [emit, Advance_state]

theorem Outcome.state_done {α : Type} (v : α) (s : Assembler) :
    (Outcome.done v s).state = s := rfl

theorem Outcome.completes_done {α : Type} (v : α) (s : Assembler) :
    (Outcome.done v s).completes = true := rfl

theorem Outcome.bind_completes {β : Type} (o : Outcome Unit) (f : Unit → Assembler → Outcome β) :
    (o.bind f).completes = (o.completes && (f () o.state).completes) := by
  cases o <;> simp [Outcome.bind, Outcome.completes, Outcome.state]

theorem Outcome.bind_state {β : Type} (o : Outcome Unit) (f : Unit → Assembler → Outcome β) :
    (o.bind f).state = if o.completes then (f () o.state).state else o.state := by
  cases o <;> simp [Outcome.bind, Outcome.completes, Outcome.state]

theorem Outcome.eq_done_of_completes {α : Type} (o : Outcome α) (h : o.completes = true) :
    ∃ v, o = Outcome.done v o.state := by
  cases o with
  | done v s => exact ⟨v, rfl⟩
  | abort s => simp [Outcome.completes] at h

theorem Outcome.completes_of_eq_done {α : Type} (o : Outcome α) (v : α) (s : Assembler)
    (h : o = Outcome.done v s) : o.completes = true ∧ o.state = s := by
  subst h; exact ⟨rfl, rfl⟩

/-- A sequence of two `emit`s completes exactly when the `emit` of the
concatenation does, and then reaches the same state. -/
theorem emit_bind_emit_completes (b1 b2 : List Nat) (s : Assembler) :
    ((emit b1 s).bind fun _ s1 => emit b2 s1).completes = (emit (b1 ++ b2) s).completes := by
  rw [Outcome.bind_completes]
  simp only [emit_completes, emit_state, List.length_append]
  by_cases h : s.mCursor + b1.length + b2.length + 15 ≤ s.mCursorEnd
  · have h1 : s.mCursor + b1.length + 15 ≤ s.mCursorEnd := by omega
    have h2 : s.mCursor + (b1.length + b2.length) + 15 ≤ s.mCursorEnd := by omega
    simp [h, h1, h2]
  · have h2 : ¬ s.mCursor + (b1.length + b2.length) + 15 ≤ s.mCursorEnd := by omega
    simp [h, h2]

theorem emit_bind_emit_state (b1 b2 : List Nat) (s : Assembler)
    (h : (emit (b1 ++ b2) s).completes = true) :
    ((emit b1 s).bind fun _ s1 => emit b2 s1).state = (emit (b1 ++ b2) s).state := by
  rw [Outcome.bind_state]
  simp only [emit_completes, List.length_append, decide_eq_true_eq] at h
  have h1 : s.mCursor + b1.length + 15 ≤ s.mCursorEnd := by omega
  rw [emit_completes, if_pos (by simpa using h1)]
  simp only [emit_state, List.length_append, Memory.writeBytes_append, Nat.add_assoc]

/-! ## The primitives as `emit`s -/

theorem NewInstruction_eq_emit (aBytes : List Int) (s : Assembler) :
    NewInstruction aBytes s = emit (aBytes.map toUint8) s := by
  simp [NewInstruction, emit, Current]

theorem Push16_eq_emit (aValue : Nat) (s : Assembler) :
    Push16 aValue s = emit (push16Bytes (aValue % 2 ^ 16)) s := by
  have h : aValue % 2 ^ 16 / 256 % 256 = aValue % 2 ^ 16 / 256 := by
    norm_num; omega
  simp only [Push16, emit, Current, push16Bytes, Memory.store16, toUint16, Memory.writeBytes,
    List.length_cons, List.length_nil, h]

theorem MoveImmediateToRax_eq_emit (aValue : Nat) (s : Assembler) :
    MoveImmediateToRax aValue s = emit (0x48 :: 0xB8 :: bytes64 aValue) s := by
  simp [MoveImmediateToRax, emit, Current, Memory.store64, Memory.writeBytes, bytes64]

/-! ## The composites -/

theorem Memory.writeBytes_writeBytes (m : Memory) (a n : Nat) (b1 b2 : List Nat)
    (h : n = a + b1.length) :
    (m.writeBytes a b1).writeBytes n b2 = m.writeBytes a (b1 ++ b2) := by
  subst h; exact (Memory.writeBytes_append b1 m a b2).symm

theorem chunk16_shift (v : Nat) :
    ((v % 2 ^ 64) >>> 48) % 2 ^ 16 = chunk16 v 3 ∧
    ((v % 2 ^ 64) >>> 32) % 2 ^ 16 = chunk16 v 2 ∧
    ((v % 2 ^ 64) >>> 16) % 2 ^ 16 = chunk16 v 1 ∧ (v % 2 ^ 64) % 2 ^ 16 = chunk16 v 0 := by
  simp only [Nat.shiftRight_eq_div_pow, chunk16]
  norm_num
  omega

theorem PushImmediate_completes (v : Nat) (s : Assembler) :
    (PushImmediate v s).completes = decide (s.mCursor + 31 ≤ s.mCursorEnd) := by
  simp only [PushImmediate, Push16_eq_emit, Outcome.bind_completes, emit_completes, emit_state,
    push16Bytes, List.length_cons, List.length_nil]
  rw [Bool.eq_iff_iff]
  simp only [Bool.and_eq_true, decide_eq_true_eq]
  omega

theorem PushImmediate_state (v : Nat) (s : Assembler)
    (h : s.mCursor + 31 ≤ s.mCursorEnd) :
    (PushImmediate v s).state =
      { mem := s.mem.writeBytes s.mCursor (pushImmediateBytes v), mCursor := s.mCursor + 16,
        mCursorEnd := s.mCursorEnd } := by
  obtain ⟨e3, e2, e1, e0⟩ := chunk16_shift v
  have h1 : s.mCursor + 4 + 15 ≤ s.mCursorEnd := by omega
  have h2 : s.mCursor + 4 + 4 + 15 ≤ s.mCursorEnd := by omega
  have h3 : s.mCursor + 4 + 4 + 4 + 15 ≤ s.mCursorEnd := by omega
  simp only [PushImmediate, Push16_eq_emit, Outcome.bind_state, emit_completes, emit_state,
    e3, e2, e1, e0]
  simp only [push16Bytes, List.length_cons, List.length_nil, Nat.zero_add, Nat.reduceAdd, h1, h2,
    h3, decide_True, if_true, pushImmediateBytes]
  simp only [Memory.writeBytes_append]
  rfl

theorem Return_eq_emit (s : Assembler) : Return s = emit [0xC3] s := by
  rw [Return, NewInstruction_eq_emit]; rfl

theorem Jump_completes (t : Nat) (s : Assembler) :
    (Jump t s).completes = decide (s.mCursor + 32 ≤ s.mCursorEnd) := by
  rw [Jump, Outcome.bind_completes, PushImmediate_completes, Bool.eq_iff_iff]
  simp only [Bool.and_eq_true, decide_eq_true_eq]
  constructor
  · rintro ⟨h1, h2⟩
    rw [PushImmediate_state t s h1, Return_eq_emit, emit_completes] at h2
    simp only [List.length_cons, List.length_nil, decide_eq_true_eq] at h2
    omega
  · intro h
    have h1 : s.mCursor + 31 ≤ s.mCursorEnd := by omega
    refine ⟨h1, ?_⟩
    rw [PushImmediate_state t s h1, Return_eq_emit, emit_completes]
    simp only [List.length_cons, List.length_nil, decide_eq_true_eq]
    omega

theorem Jump_state (t : Nat) (s : Assembler) (h : s.mCursor + 32 ≤ s.mCursorEnd) :
    (Jump t s).state =
      { mem := s.mem.writeBytes s.mCursor (pushImmediateBytes t ++ [0xC3]),
        mCursor := s.mCursor + 17, mCursorEnd := s.mCursorEnd } := by
  have h1 : s.mCursor + 31 ≤ s.mCursorEnd := by omega
  rw [Jump, Outcome.bind_state, PushImmediate_completes, if_pos (by simpa using h1),
    PushImmediate_state t s h1, Return_eq_emit, emit_state]
  simp only [Memory.writeBytes_append]
  rfl

theorem MoveRaxToRegister_eq_emit (r : Register) (s : Assembler) :
    MoveRaxToRegister r s = emit (encodeMov64 r.ord Register.RAX.ord) s := by
  rw [MoveRaxToRegister, NewInstruction_eq_emit]
  cases r <;> rfl

theorem MoveRegisterToRax_eq_emit (r : Register) (s : Assembler) :
    MoveRegisterToRax r s = emit (encodeMov64 Register.RAX.ord r.ord) s := by
  rw [MoveRegisterToRax, NewInstruction_eq_emit]
  cases r <;> rfl

/-- What the `switch` does at each argument position. -/
theorem moveArgument_cases (p : Nat) :
    (p = 1 ∧ ∀ s, BindFunctionArgument.moveArgument p s = emit [0x48, 0x89, 0xC6] s) ∨
    (p = 2 ∧ ∀ s, BindFunctionArgument.moveArgument p s = emit [0x48, 0x89, 0xC2] s) ∨
    (p = 3 ∧ ∀ s, BindFunctionArgument.moveArgument p s = emit [0x48, 0x89, 0xC1] s) ∨
    ((p ≠ 1 ∧ p ≠ 2 ∧ p ≠ 3) ∧ ∀ s, BindFunctionArgument.moveArgument p s = Outcome.abort s) := by
  match p with
  | 0 => right; right; right; exact ⟨by decide, fun s => rfl⟩
  | 1 => left; exact ⟨rfl, fun s => MoveRaxToRegister_eq_emit _ s⟩
  | 2 => right; left; exact ⟨rfl, fun s => MoveRaxToRegister_eq_emit _ s⟩
  | 3 => right; right; left; exact ⟨rfl, fun s => MoveRaxToRegister_eq_emit _ s⟩
  | n + 4 => right; right; right; exact ⟨by omega, fun s => rfl⟩

theorem BindFunctionArgument_val (f v p r : Nat) (s t : Assembler)
    (h : BindFunctionArgument f v p s = Outcome.done r t) : r = s.mCursor := by
  unfold BindFunctionArgument at h
  cases h1 : MoveImmediateToRax v s with
  | abort s1 => simp [h1, Outcome.bind] at h
  | done u1 s1 =>
    cases h2 : BindFunctionArgument.moveArgument p s1 with
    | abort s2 => simp [h1, h2, Outcome.bind] at h
    | done u2 s2 =>
      cases h3 : Jump f s2 with
      | abort s3 => simp [h1, h2, h3, Outcome.bind] at h
      | done u3 s3 =>
        simp only [h1, h2, h3, Outcome.bind, Outcome.done.injEq, Current] at h
        exact h.1.symm

/-- A rejected argument position: the generator aborts, and it does so in the
state the load of the value has left (or in that of the failed capacity
check of the load). -/
theorem BindFunctionArgument_rejected (f v p : Nat) (s : Assembler)
    (hp : p ≠ 1 ∧ p ≠ 2 ∧ p ≠ 3) :
    (BindFunctionArgument f v p s).completes = false ∧
    (BindFunctionArgument f v p s).state = (MoveImmediateToRax v s).state := by
  rcases moveArgument_cases p with h | h | h | ⟨_, h⟩
  · exact absurd h.1 hp.1
  · exact absurd h.1 hp.2.1
  · exact absurd h.1 hp.2.2
  · unfold BindFunctionArgument
    cases h1 : MoveImmediateToRax v s with
    | abort s1 => exact ⟨rfl, rfl⟩
    | done u1 s1 => simp [Outcome.bind, h, Outcome.completes, Outcome.state]

/-- An accepted argument position, whose move has ModRM byte `m`: the
generator is the `emit` of the thirty trampoline bytes as far as completion
and the final state go. -/
theorem BindFunctionArgument_accepted (f v p m : Nat) (s : Assembler)
    (hm : ∀ s1, BindFunctionArgument.moveArgument p s1 = emit [0x48, 0x89, m] s1) :
    (BindFunctionArgument f v p s).completes = decide (s.mCursor + 45 ≤ s.mCursorEnd) ∧
    (s.mCursor + 45 ≤ s.mCursorEnd →
      BindFunctionArgument f v p s = Outcome.done s.mCursor
        { mem := s.mem.writeBytes s.mCursor (trampolineBytes f v m),
          mCursor := s.mCursor + 30, mCursorEnd := s.mCursorEnd }) := by
  have hc : (BindFunctionArgument f v p s).completes = decide (s.mCursor + 45 ≤ s.mCursorEnd) := by
    unfold BindFunctionArgument
    simp only [Outcome.bind_completes, MoveImmediateToRax_eq_emit, hm, emit_completes, emit_state,
      Jump_completes, Outcome.completes_done, Bool.and_true, bytes64, List.length_cons,
      List.length_nil]
    rw [Bool.eq_iff_iff]
    simp only [Bool.and_eq_true, decide_eq_true_eq]
    omega
  refine ⟨hc, fun h => ?_⟩
  obtain ⟨r, hr⟩ := Outcome.eq_done_of_completes _ (hc.trans (by simpa using h))
  have hval := BindFunctionArgument_val f v p r s _ hr
  rw [hr, hval]
  congr 1
  unfold BindFunctionArgument
  have h1 : s.mCursor + 10 + 15 ≤ s.mCursorEnd := by omega
  have h2 : s.mCursor + 10 + 3 + 15 ≤ s.mCursorEnd := by omega
  have h3 : s.mCursor + 10 + 3 + 32 ≤ s.mCursorEnd := by omega
  simp only [Outcome.bind_state, MoveImmediateToRax_eq_emit, hm, emit_completes, emit_state,
    Jump_completes, Outcome.state_done, bytes64, List.length_cons, List.length_nil, Nat.zero_add,
    Nat.reduceAdd, h1, h2, h3, decide_True, if_true]
  rw [Jump_state f _ h3]
  simp only [trampolineBytes, Memory.writeBytes_append, bytes64]
  rfl

/-- Every completed run of the generator: the position is one of 1, 2, 3, the
buffer holds thirty bytes plus the margin, the value returned is the initial
cursor, and the final state is known. -/
theorem BindFunctionArgument_done (f v p r : Nat) (s t : Assembler)
    (h : BindFunctionArgument f v p s = Outcome.done r t) :
    ∃ m, ((p = 1 ∧ m = 0xC6) ∨ (p = 2 ∧ m = 0xC2) ∨ (p = 3 ∧ m = 0xC1)) ∧
      s.mCursor + 45 ≤ s.mCursorEnd ∧ r = s.mCursor ∧
      t = { mem := s.mem.writeBytes s.mCursor (trampolineBytes f v m),
            mCursor := s.mCursor + 30, mCursorEnd := s.mCursorEnd } := by
  obtain ⟨hc, ht⟩ := Outcome.completes_of_eq_done _ _ _ h
  have key : ∀ m, (∀ s1, BindFunctionArgument.moveArgument p s1 = emit [0x48, 0x89, m] s1) →
      s.mCursor + 45 ≤ s.mCursorEnd ∧ r = s.mCursor ∧
      t = { mem := s.mem.writeBytes s.mCursor (trampolineBytes f v m),
            mCursor := s.mCursor + 30, mCursorEnd := s.mCursorEnd } := by
    intro m hm
    obtain ⟨h1, h2⟩ := BindFunctionArgument_accepted f v p m s hm
    have hcap : s.mCursor + 45 ≤ s.mCursorEnd := by
      rw [hc] at h1; simpa using h1.symm
    have h3 := h2 hcap
    rw [h] at h3
    simp only [Outcome.done.injEq] at h3
    exact ⟨hcap, h3.1, h3.2⟩
  rcases moveArgument_cases p with ⟨hp, hm⟩ | ⟨hp, hm⟩ | ⟨hp, hm⟩ | ⟨hp, _⟩
  · exact ⟨0xC6, Or.inl ⟨hp, rfl⟩, key _ hm⟩
  · exact ⟨0xC2, Or.inr (Or.inl ⟨hp, rfl⟩), key _ hm⟩
  · exact ⟨0xC1, Or.inr (Or.inr ⟨hp, rfl⟩), key _ hm⟩
  · have := (BindFunctionArgument_rejected f v p s hp).1
    rw [hc] at this
    exact absurd this (by decide)

/-! ## Lemmas about the processor model -/

theorem trampolineBytes_length (f v m : Nat) : (trampolineBytes f v m).length = 30 := rfl

theorem littleEndian_bytes64 (v : Nat) : littleEndian (bytes64 v) = v % 2 ^ 64 := by
  simp only [littleEndian, bytes64]
  norm_num
  omega

theorem littleEndian_chunks (v : Nat) :
    littleEndian [chunk16 v 0 % 256, chunk16 v 0 / 256, chunk16 v 1 % 256, chunk16 v 1 / 256,
      chunk16 v 2 % 256, chunk16 v 2 / 256, chunk16 v 3 % 256, chunk16 v 3 / 256] = v % 2 ^ 64 := by
  simp only [littleEndian, chunk16]
  norm_num
  omega

/-- Eight consecutive stack addresses starting at `q` are distinct. -/
theorem stack_address_inj (q i j : Nat) (hi : i < 8) (hj : j < 8) :
    (q + i) % 2 ^ 64 = (q + j) % 2 ^ 64 ↔ i = j := by
  norm_num
  omega

/-- Four 16-bit pushes followed by a return: the eight pushed bytes, read from
the lowest address up, become the instruction pointer, and the stack pointer
is back where it was. -/
theorem Cpu.pushes_ret (c : Cpu) (hsp : c.rsp < 2 ^ 64) (b0 b1 b2 b3 b4 b5 b6 b7 : Nat) :
    let c4 := (((c.step (Instr.push16 b6 b7)).step (Instr.push16 b4 b5)).step
      (Instr.push16 b2 b3)).step (Instr.push16 b0 b1)
    (c4.step Instr.ret).rip = littleEndian [b0, b1, b2, b3, b4, b5, b6, b7] ∧
    (c4.step Instr.ret).rsp = c.rsp ∧ (c4.step Instr.ret).regs = c.regs := by
  intro c4
  obtain ⟨q, hq⟩ : ∃ q, q = (2 ^ 64 - 8 + c.rsp) % 2 ^ 64 := ⟨_, rfl⟩
  have hq64 : q < 2 ^ 64 := by rw [hq]; exact Nat.mod_lt _ (by norm_num)
  have f1 : (2 ^ 64 - 2 + c.rsp) % 2 ^ 64 = (q + 6) % 2 ^ 64 := by
    norm_num at hq hsp ⊢; omega
  have f2 : (2 ^ 64 - 2 + (q + 6) % 2 ^ 64) % 2 ^ 64 = (q + 4) % 2 ^ 64 := by
    norm_num at hq64 ⊢; omega
  have f3 : (2 ^ 64 - 2 + (q + 4) % 2 ^ 64) % 2 ^ 64 = (q + 2) % 2 ^ 64 := by
    norm_num at hq64 ⊢; omega
  have f4 : (2 ^ 64 - 2 + (q + 2) % 2 ^ 64) % 2 ^ 64 = (q + 0) % 2 ^ 64 := by
    norm_num at hq64 ⊢; omega
  have g1 : ((q + 6) % 2 ^ 64 + 1) % 2 ^ 64 = (q + 7) % 2 ^ 64 := by
    norm_num at hq64 ⊢
  have g2 : ((q + 4) % 2 ^ 64 + 1) % 2 ^ 64 = (q + 5) % 2 ^ 64 := by
    norm_num at hq64 ⊢
  have g3 : ((q + 2) % 2 ^ 64 + 1) % 2 ^ 64 = (q + 3) % 2 ^ 64 := by
    norm_num at hq64 ⊢
  have g4 : ((q + 0) % 2 ^ 64 + 1) % 2 ^ 64 = (q + 1) % 2 ^ 64 := by
    norm_num at hq64 ⊢
  have g5 : ((q + 0) % 2 ^ 64 + 8) % 2 ^ 64 = c.rsp := by
    norm_num at hq hsp ⊢; omega
  have r0 : ∀ i, ((q + 0) % 2 ^ 64 + i) % 2 ^ 64 = (q + i) % 2 ^ 64 := by
    intro i; norm_num
  have inj := stack_address_inj q
  refine ⟨?_, ?_, ?_⟩
  · simp only [c4, Cpu.step, f1, f2, f3, f4, g1, g2, g3, g4, r0, List.range, List.range.loop,
      List.map, Memory.write]
    simp (disch := omega) only [inj, if_true, if_false, Nat.reduceEqDiff]
  · simp only [c4, Cpu.step, f1, f2, f3, f4, g5]
  · simp only [c4, Cpu.step]

theorem decode_movImm64 (i0 i1 i2 i3 i4 i5 i6 i7 : Nat) (rest : List Nat) :
    decode (0x48 :: 0xB8 :: i0 :: i1 :: i2 :: i3 :: i4 :: i5 :: i6 :: i7 :: rest) =
      some (Instr.movImm64 0 (littleEndian [i0, i1, i2, i3, i4, i5, i6, i7]), rest) := rfl

theorem decode_mov64 (d : Nat) (hd : d < 8) (rest : List Nat) :
    decode (0x48 :: 0x89 :: (0xC0 + d) :: rest) = some (Instr.mov64 d 0, rest) := by
  interval_cases d <;> rfl

theorem decode_push16 (lo hi : Nat) (rest : List Nat) :
    decode (0x66 :: 0x68 :: lo :: hi :: rest) = some (Instr.push16 lo hi, rest) := rfl

theorem decode_ret (rest : List Nat) : decode (0xC3 :: rest) = some (Instr.ret, rest) := rfl

theorem Cpu.run_movImm64 (fuel : Nat) (code rest : List Nat) (c : Cpu) (dst imm : Nat)
    (h : decode code = some (Instr.movImm64 dst imm, rest)) :
    Cpu.run (fuel + 1) code c = Cpu.run fuel rest (c.step (Instr.movImm64 dst imm)) := by
  rw [Cpu.run, h]

theorem Cpu.run_mov64 (fuel : Nat) (code rest : List Nat) (c : Cpu) (dst src : Nat)
    (h : decode code = some (Instr.mov64 dst src, rest)) :
    Cpu.run (fuel + 1) code c = Cpu.run fuel rest (c.step (Instr.mov64 dst src)) := by
  rw [Cpu.run, h]

theorem Cpu.run_push16 (fuel : Nat) (code rest : List Nat) (c : Cpu) (lo hi : Nat)
    (h : decode code = some (Instr.push16 lo hi, rest)) :
    Cpu.run (fuel + 1) code c = Cpu.run fuel rest (c.step (Instr.push16 lo hi)) := by
  rw [Cpu.run, h]

theorem Cpu.run_ret (fuel : Nat) (code rest : List Nat) (c : Cpu)
    (h : decode code = some (Instr.ret, rest)) :
    Cpu.run (fuel + 1) code c = some (c.step Instr.ret) := by
  rw [Cpu.run, h]

/-- Executing the seventeen bytes of a jump: control reaches the target, the
stack pointer and the registers are as before. -/
theorem Cpu.run_jumpBytes (c : Cpu) (hsp : c.rsp < 2 ^ 64) (t fuel : Nat) :
    ∃ c1, Cpu.run (fuel + 5) (pushImmediateBytes t ++ [0xC3]) c = some c1 ∧
      c1.rip = t % 2 ^ 64 ∧ c1.rsp = c.rsp ∧ c1.regs = c.regs := by
  have h := Cpu.pushes_ret c hsp (chunk16 t 0 % 256) (chunk16 t 0 / 256) (chunk16 t 1 % 256)
    (chunk16 t 1 / 256) (chunk16 t 2 % 256) (chunk16 t 2 / 256) (chunk16 t 3 % 256)
    (chunk16 t 3 / 256)
  rw [littleEndian_chunks] at h
  refine ⟨_, ?_, h⟩
  simp only [pushImmediateBytes, push16Bytes, List.cons_append, List.nil_append,
    List.append_assoc]
  rw [Cpu.run_push16 (fuel + 4) _ _ _ _ _ (decode_push16 _ _ _),
    Cpu.run_push16 (fuel + 3) _ _ _ _ _ (decode_push16 _ _ _),
    Cpu.run_push16 (fuel + 2) _ _ _ _ _ (decode_push16 _ _ _),
    Cpu.run_push16 (fuel + 1) _ _ _ _ _ (decode_push16 _ _ _),
    Cpu.run_ret fuel _ _ _ (decode_ret _)]

/-- Executing the thirty bytes of a trampoline whose move has ModRM byte
`0xC0 + d` with `d < 8`: control reaches the target with the bound value in
register `d`; the stack pointer and every register other than the accumulator
and `d` are as before. -/
theorem Cpu.exec_trampolineBytes (c : Cpu) (hsp : c.rsp < 2 ^ 64) (f v d : Nat) (hd : d < 8) :
    ∃ c1, Cpu.exec (trampolineBytes f v (0xC0 + d)) c = some c1 ∧
      c1.rip = f % 2 ^ 64 ∧ c1.rsp = c.rsp ∧ c1.regs d = v % 2 ^ 64 ∧
      c1.regs 0 = v % 2 ^ 64 ∧ ∀ k, k ≠ 0 → k ≠ d → c1.regs k = c.regs k := by
  obtain ⟨c1, h1, h2, h3, h4⟩ := Cpu.run_jumpBytes
    ((c.step (Instr.movImm64 0 (littleEndian (bytes64 v)))).step (Instr.mov64 d 0)) hsp f 23
  rw [littleEndian_bytes64] at h4
  refine ⟨c1, ?_, h2, h3, ?_, ?_, ?_⟩
  · rw [← h1]
    rw [Cpu.exec, trampolineBytes_length]
    simp only [trampolineBytes, bytes64, List.cons_append, List.nil_append, List.append_assoc]
    rw [Cpu.run_movImm64 29 _ _ _ _ _ (decode_movImm64 _ _ _ _ _ _ _ _ _),
      Cpu.run_mov64 28 _ _ _ _ _ (decode_mov64 d hd _)]
  · rw [h4]; simp [Cpu.step]
  · rw [h4]; simp [Cpu.step]
  · intro k hk0 hkd
    rw [h4]; simp [Cpu.step, hk0, hkd]

theorem PopRegister_eq_emit (r : Register) (s : Assembler) :
    PopRegister r s =
      emit (if r.ord ≤ 7 then [0x58 + r.ord] else [0x41, 0x58 + (r.ord - 8)]) s := by
  rw [PopRegister, NewInstruction_eq_emit]
  cases r <;> rfl

theorem chunk16_mod (v k : Nat) : chunk16 v k % 2 ^ 16 = chunk16 v k := by
  unfold chunk16
  exact Nat.mod_mod _ _

/-! ## The claims -/

/-- C1: whenever `BindFunctionArgument` completes, the thirty bytes from the
initial cursor on are, in order: `48 B8` and the eight bytes of the bound value
`V`, least significant first; the three byte move `48 89 m` of the accumulator
into the argument register; the four groups `66 68 lo hi` carrying the 16-bit
chunks of the target `F` from bits 63..48 down to bits 15..0; and `C3`. -/
theorem C1_trampoline_is_thirty_bytes (F V p r : Nat) (s t : Assembler)
    (h : BindFunctionArgument F V p s = Outcome.done r t) :
    ∃ m, (m = 0xC6 ∨ m = 0xC2 ∨ m = 0xC1) ∧
      t.mem.readBytes s.mCursor 30 =
        [0x48, 0xB8,
         V % 256, V / 256 % 256, V / 256 ^ 2 % 256, V / 256 ^ 3 % 256,
         V / 256 ^ 4 % 256, V / 256 ^ 5 % 256, V / 256 ^ 6 % 256, V / 256 ^ 7 % 256,
         0x48, 0x89, m,
         0x66, 0x68, chunk16 F 3 % 256, chunk16 F 3 / 256,
         0x66, 0x68, chunk16 F 2 % 256, chunk16 F 2 / 256,
         0x66, 0x68, chunk16 F 1 % 256, chunk16 F 1 / 256,
         0x66, 0x68, chunk16 F 0 % 256, chunk16 F 0 / 256,
         0xC3] := by
  obtain ⟨m, hm, _, _, ht⟩ := BindFunctionArgument_done F V p r s t h
  refine ⟨m, ?_, ?_⟩
  · rcases hm with h1 | h1 | h1
    · exact Or.inl h1.2
    · exact Or.inr (Or.inl h1.2)
    · exact Or.inr (Or.inr h1.2)
  · subst ht
    exact Memory.readBytes_writeBytes (trampolineBytes F V m) s.mem s.mCursor

/-- C1 at a concrete input: the scenario of the specification, the value
`0xDEADBEEF` bound at position 1 for the target `0x1122334455667788`. -/
theorem C1_trampoline_is_thirty_bytes_witness :
    BindFunctionArgument 0x1122334455667788 0xDEADBEEF 1 sentinelEmitter =
      Outcome.done 4096
        (BindFunctionArgument 0x1122334455667788 0xDEADBEEF 1 sentinelEmitter).state ∧
    ∃ m, (m = 0xC6 ∨ m = 0xC2 ∨ m = 0xC1) ∧
      (BindFunctionArgument 0x1122334455667788 0xDEADBEEF 1 sentinelEmitter).state.mem.readBytes
          sentinelEmitter.mCursor 30 =
        [0x48, 0xB8,
         0xDEADBEEF % 256, 0xDEADBEEF / 256 % 256, 0xDEADBEEF / 256 ^ 2 % 256,
         0xDEADBEEF / 256 ^ 3 % 256, 0xDEADBEEF / 256 ^ 4 % 256, 0xDEADBEEF / 256 ^ 5 % 256,
         0xDEADBEEF / 256 ^ 6 % 256, 0xDEADBEEF / 256 ^ 7 % 256,
         0x48, 0x89, m,
         0x66, 0x68, chunk16 0x1122334455667788 3 % 256, chunk16 0x1122334455667788 3 / 256,
         0x66, 0x68, chunk16 0x1122334455667788 2 % 256, chunk16 0x1122334455667788 2 / 256,
         0x66, 0x68, chunk16 0x1122334455667788 1 % 256, chunk16 0x1122334455667788 1 / 256,
         0x66, 0x68, chunk16 0x1122334455667788 0 % 256, chunk16 0x1122334455667788 0 / 256,
         0xC3] :=
  ⟨rfl, C1_trampoline_is_thirty_bytes 0x1122334455667788 0xDEADBEEF 1 4096 sentinelEmitter
    (BindFunctionArgument 0x1122334455667788 0xDEADBEEF 1 sentinelEmitter).state rfl⟩

/-- C2 as stated fails.  On the 64-byte buffer, position 2 completes and its
move is `48 89 C2`, the move into RDX, not `48 89 C6`, the move into RSI;
executed with RDI, RSI, RDX, RCX holding 11, 22, 33, 44 the trampoline enters
the target with RSI still 22 and the bound value in RDX; and position 4
aborts instead of emitting a move into RCX. -/
theorem C2_position_two_moves_into_RDX_counterexample :
    (BindFunctionArgument 0x1122334455667788 0xDEADBEEF 2 sentinelEmitter).completes = true ∧
    (BindFunctionArgument 0x1122334455667788 0xDEADBEEF 2 sentinelEmitter).state.mem.readBytes
        (sentinelEmitter.mCursor + 10) 3 = [0x48, 0x89, 0xC2] ∧
    (BindFunctionArgument 0x1122334455667788 0xDEADBEEF 2 sentinelEmitter).state.mem.readBytes
        (sentinelEmitter.mCursor + 10) 3 ≠ [0x48, 0x89, 0xC6] ∧
    (Cpu.exec
        ((BindFunctionArgument 0x1122334455667788 0xDEADBEEF 2 sentinelEmitter).state.mem.readBytes
          sentinelEmitter.mCursor 30) callerCpu).map
      (fun c => [c.rip, c.regs Register.RDI.ord, c.regs Register.RSI.ord,
        c.regs Register.RDX.ord, c.regs Register.RCX.ord]) =
      some [0x1122334455667788, 11, 22, 0xDEADBEEF, 44] ∧
    (BindFunctionArgument 0x1122334455667788 0xDEADBEEF 4 sentinelEmitter).completes = false := by
  refine ⟨by decide, by decide, by decide, by decide, by decide⟩

/-- C2, amended: positions are counted from zero.  Whenever
`BindFunctionArgument` completes, the move it emitted at offset 10 targets
the register the calling convention assigns to that position: RSI
(`48 89 C6`) for position 1, RDX (`48 89 C2`) for position 2, RCX
(`48 89 C1`) for position 3.  Executing the thirty bytes enters the target
`F` with the bound value `V` in that register, the stack pointer unchanged
and every register other than the accumulator and that one as the caller left
it: the value is written into the slot, the later arguments are not shifted. -/
theorem C2_move_targets_argument_register (F V p r : Nat) (s t : Assembler) (c : Cpu)
    (hF : F < 2 ^ 64) (hV : V < 2 ^ 64) (hsp : c.rsp < 2 ^ 64)
    (h : BindFunctionArgument F V p s = Outcome.done r t) :
    ∃ reg, argumentRegister p = some reg ∧
      ((p = 1 ∧ reg = Register.RSI ∧ t.mem.readBytes (s.mCursor + 10) 3 = [0x48, 0x89, 0xC6]) ∨
       (p = 2 ∧ reg = Register.RDX ∧ t.mem.readBytes (s.mCursor + 10) 3 = [0x48, 0x89, 0xC2]) ∨
       (p = 3 ∧ reg = Register.RCX ∧ t.mem.readBytes (s.mCursor + 10) 3 = [0x48, 0x89, 0xC1])) ∧
      t.mem.readBytes (s.mCursor + 10) 3 = encodeMov64 reg.ord Register.RAX.ord ∧
      ∃ c1, Cpu.exec (t.mem.readBytes s.mCursor 30) c = some c1 ∧
        c1.rip = F ∧ c1.rsp = c.rsp ∧ c1.regs reg.ord = V ∧
        ∀ k, k ≠ Register.RAX.ord → k ≠ reg.ord → c1.regs k = c.regs k := by
  obtain ⟨m, hm, _, _, ht⟩ := BindFunctionArgument_done F V p r s t h
  subst ht
  have hmid : (s.mem.writeBytes s.mCursor (trampolineBytes F V m)).readBytes (s.mCursor + 10) 3 =
      [0x48, 0x89, m] :=
    Memory.readBytes_writeBytes_mid (0x48 :: 0xB8 :: bytes64 V) [0x48, 0x89, m]
      (pushImmediateBytes F ++ [0xC3]) s.mem s.mCursor
  have hall : (s.mem.writeBytes s.mCursor (trampolineBytes F V m)).readBytes s.mCursor 30 =
      trampolineBytes F V m :=
    Memory.readBytes_writeBytes (trampolineBytes F V m) s.mem s.mCursor
  have hexec : ∀ d, d < 8 → m = 0xC0 + d →
      ∃ c1, Cpu.exec ((s.mem.writeBytes s.mCursor (trampolineBytes F V m)).readBytes
          s.mCursor 30) c = some c1 ∧
        c1.rip = F ∧ c1.rsp = c.rsp ∧ c1.regs d = V ∧
        ∀ k, k ≠ 0 → k ≠ d → c1.regs k = c.regs k := by
    intro d hd hmd
    obtain ⟨c1, e1, e2, e3, e4, _, e6⟩ := Cpu.exec_trampolineBytes c hsp F V d hd
    rw [Nat.mod_eq_of_lt hF] at e2
    rw [Nat.mod_eq_of_lt hV] at e4
    rw [hall, hmd]
    exact ⟨c1, e1, e2, e3, e4, e6⟩
  rcases hm with ⟨hp, hm⟩ | ⟨hp, hm⟩ | ⟨hp, hm⟩ <;> subst hp <;> subst hm
  · exact ⟨Register.RSI, rfl, Or.inl ⟨rfl, rfl, hmid⟩, hmid, hexec 6 (by decide) rfl⟩
  · exact ⟨Register.RDX, rfl, Or.inr (Or.inl ⟨rfl, rfl, hmid⟩), hmid, hexec 2 (by decide) rfl⟩
  · exact ⟨Register.RCX, rfl, Or.inr (Or.inr ⟨rfl, rfl, hmid⟩), hmid, hexec 1 (by decide) rfl⟩

/-- C2 amended, at a concrete input: position 1 on the 64-byte buffer, run
from a processor state with stack pointer 8192. -/
theorem C2_move_targets_argument_register_witness :
    (0x1122334455667788 < 2 ^ 64 ∧ 0xDEADBEEF < 2 ^ 64 ∧ callerCpu.rsp < 2 ^ 64 ∧
      BindFunctionArgument 0x1122334455667788 0xDEADBEEF 1 sentinelEmitter =
        Outcome.done 4096
          (BindFunctionArgument 0x1122334455667788 0xDEADBEEF 1 sentinelEmitter).state) ∧
    ∃ reg, argumentRegister 1 = some reg ∧
      ((1 = 1 ∧ reg = Register.RSI ∧
          (BindFunctionArgument 0x1122334455667788 0xDEADBEEF 1 sentinelEmitter).state.mem.readBytes
            (sentinelEmitter.mCursor + 10) 3 = [0x48, 0x89, 0xC6]) ∨
       (1 = 2 ∧ reg = Register.RDX ∧
          (BindFunctionArgument 0x1122334455667788 0xDEADBEEF 1 sentinelEmitter).state.mem.readBytes
            (sentinelEmitter.mCursor + 10) 3 = [0x48, 0x89, 0xC2]) ∨
       (1 = 3 ∧ reg = Register.RCX ∧
          (BindFunctionArgument 0x1122334455667788 0xDEADBEEF 1 sentinelEmitter).state.mem.readBytes
            (sentinelEmitter.mCursor + 10) 3 = [0x48, 0x89, 0xC1])) ∧
      (BindFunctionArgument 0x1122334455667788 0xDEADBEEF 1 sentinelEmitter).state.mem.readBytes
          (sentinelEmitter.mCursor + 10) 3 = encodeMov64 reg.ord Register.RAX.ord ∧
      ∃ c1, Cpu.exec
          ((BindFunctionArgument 0x1122334455667788 0xDEADBEEF 1
            sentinelEmitter).state.mem.readBytes sentinelEmitter.mCursor 30) callerCpu = some c1 ∧
        c1.rip = 0x1122334455667788 ∧ c1.rsp = callerCpu.rsp ∧ c1.regs reg.ord = 0xDEADBEEF ∧
        ∀ k, k ≠ Register.RAX.ord → k ≠ reg.ord → c1.regs k = callerCpu.regs k :=
  ⟨⟨by decide, by decide, by decide, rfl⟩,
    C2_move_targets_argument_register 0x1122334455667788 0xDEADBEEF 1 4096 sentinelEmitter
      (BindFunctionArgument 0x1122334455667788 0xDEADBEEF 1 sentinelEmitter).state callerCpu
      (by decide) (by decide) (by decide) rfl⟩

/-- C3 as stated fails.  The 64-byte buffer has room for a whole trampoline;
at position 1, which is outside {2, 3, 4}, the generator returns the address
4096, and at position 4, which is inside {2, 3, 4}, it aborts. -/
theorem C3_positions_one_and_four_counterexample :
    sentinelEmitter.mCursor + 45 ≤ sentinelEmitter.mCursorEnd ∧
    (∃ t, BindFunctionArgument 0x1122334455667788 0xDEADBEEF 1 sentinelEmitter =
      Outcome.done 4096 t) ∧
    (∃ t, BindFunctionArgument 0x1122334455667788 0xDEADBEEF 4 sentinelEmitter =
      Outcome.abort t) :=
  ⟨by decide, ⟨_, rfl⟩, ⟨_, rfl⟩⟩

/-- C3, amended: with room for a whole trampoline (thirty bytes and the
fifteen byte margin), `BindFunctionArgument` aborts without returning an
address if and only if the position is outside {1, 2, 3}; for a position in
{1, 2, 3} it returns the address at which generation began. -/
theorem C3_abort_iff_position_outside_one_two_three (F V p : Nat) (s : Assembler)
    (hcap : s.mCursor + 45 ≤ s.mCursorEnd) :
    ((∃ t, BindFunctionArgument F V p s = Outcome.abort t) ↔ ¬ (p = 1 ∨ p = 2 ∨ p = 3)) ∧
    ((p = 1 ∨ p = 2 ∨ p = 3) → ∃ t, BindFunctionArgument F V p s = Outcome.done s.mCursor t) := by
  have hacc : (p = 1 ∨ p = 2 ∨ p = 3) →
      ∃ t, BindFunctionArgument F V p s = Outcome.done s.mCursor t := by
    intro hp
    rcases moveArgument_cases p with ⟨_, hm⟩ | ⟨_, hm⟩ | ⟨_, hm⟩ | ⟨hn, _⟩
    · exact ⟨_, (BindFunctionArgument_accepted F V p _ s hm).2 hcap⟩
    · exact ⟨_, (BindFunctionArgument_accepted F V p _ s hm).2 hcap⟩
    · exact ⟨_, (BindFunctionArgument_accepted F V p _ s hm).2 hcap⟩
    · omega
  refine ⟨⟨?_, ?_⟩, hacc⟩
  · rintro ⟨t, ht⟩ hp
    obtain ⟨t2, ht2⟩ := hacc hp
    rw [ht] at ht2
    exact Outcome.noConfusion ht2
  · intro hp
    have hrej := BindFunctionArgument_rejected F V p s (by omega)
    cases hb : BindFunctionArgument F V p s with
    | abort t => exact ⟨t, rfl⟩
    | done v t => rw [hb] at hrej; exact absurd hrej.1 (by simp [Outcome.completes])

/-- C3 amended, at concrete inputs: on the 64-byte buffer position 0 aborts
and position 3 returns the address 4096. -/
theorem C3_abort_iff_position_outside_one_two_three_witness :
    sentinelEmitter.mCursor + 45 ≤ sentinelEmitter.mCursorEnd ∧
    ((∃ t, BindFunctionArgument 0x1122334455667788 0xDEADBEEF 0 sentinelEmitter =
        Outcome.abort t) ↔ ¬ (0 = 1 ∨ 0 = 2 ∨ 0 = 3)) ∧
    ∃ t, BindFunctionArgument 0x1122334455667788 0xDEADBEEF 3 sentinelEmitter =
      Outcome.done sentinelEmitter.mCursor t :=
  ⟨by decide,
    (C3_abort_iff_position_outside_one_two_three 0x1122334455667788 0xDEADBEEF 0 sentinelEmitter
      (by decide)).1,
    (C3_abort_iff_position_outside_one_two_three 0x1122334455667788 0xDEADBEEF 3 sentinelEmitter
      (by decide)).2 (by decide)⟩

/-- C4: whenever `BindFunctionArgument` completes, the value it returns is the
cursor (`Current()`) as it was on entry, and the cursor on exit is that value
plus 30. -/
theorem C4_returns_entry_cursor (F V p r : Nat) (s t : Assembler)
    (h : BindFunctionArgument F V p s = Outcome.done r t) :
    r = Current s ∧ Current t = r + 30 := by
  obtain ⟨m, _, _, hr, ht⟩ := BindFunctionArgument_done F V p r s t h
  subst ht
  exact ⟨hr, by rw [hr]; rfl⟩

/-- C4 at a concrete input: position 2 on the 64-byte buffer at address 4096
returns 4096 and leaves the cursor at 4126. -/
theorem C4_returns_entry_cursor_witness :
    BindFunctionArgument 0x1122334455667788 0xDEADBEEF 2 sentinelEmitter =
      Outcome.done 4096
        (BindFunctionArgument 0x1122334455667788 0xDEADBEEF 2 sentinelEmitter).state ∧
    4096 = Current sentinelEmitter ∧
    Current (BindFunctionArgument 0x1122334455667788 0xDEADBEEF 2 sentinelEmitter).state =
      4096 + 30 :=
  ⟨rfl, C4_returns_entry_cursor 0x1122334455667788 0xDEADBEEF 2 4096 sentinelEmitter
    (BindFunctionArgument 0x1122334455667788 0xDEADBEEF 2 sentinelEmitter).state rfl⟩

/-- C5: for every 64-bit target `T`, executing the seventeen bytes a completed
`Jump(T)` has emitted, on a machine whose stack grows downward and stores
pushed 16-bit values least significant byte first, sets the instruction
pointer to exactly `T` and leaves the stack pointer, and the registers, as
they were before the sequence. -/
theorem C5_jump_reaches_target (T : Nat) (s : Assembler) (c : Cpu)
    (hT : T < 2 ^ 64) (hsp : c.rsp < 2 ^ 64) (h : (Jump T s).completes = true) :
    ∃ c1, Cpu.exec ((Jump T s).state.mem.readBytes s.mCursor 17) c = some c1 ∧
      c1.rip = T ∧ c1.rsp = c.rsp ∧ c1.regs = c.regs := by
  rw [Jump_completes, decide_eq_true_eq] at h
  rw [Jump_state T s h]
  obtain ⟨c1, h1, h2, h3, h4⟩ := Cpu.run_jumpBytes c hsp T 12
  rw [Nat.mod_eq_of_lt hT] at h2
  refine ⟨c1, ?_, h2, h3, h4⟩
  have hread : (s.mem.writeBytes s.mCursor (pushImmediateBytes T ++ [0xC3])).readBytes
      s.mCursor 17 = pushImmediateBytes T ++ [0xC3] :=
    Memory.readBytes_writeBytes (pushImmediateBytes T ++ [0xC3]) s.mem s.mCursor
  show Cpu.exec ((s.mem.writeBytes s.mCursor (pushImmediateBytes T ++ [0xC3])).readBytes
    s.mCursor 17) c = some c1
  rw [hread]
  exact h1

/-- C5 at a concrete input: a target whose upper chunk is `0xFFFF` and whose
lower chunk is `0x0000`, on the 64-byte buffer. -/
theorem C5_jump_reaches_target_witness :
    (0xFFFF123456780000 < 2 ^ 64 ∧ callerCpu.rsp < 2 ^ 64 ∧
      (Jump 0xFFFF123456780000 sentinelEmitter).completes = true) ∧
    ∃ c1, Cpu.exec ((Jump 0xFFFF123456780000 sentinelEmitter).state.mem.readBytes
        sentinelEmitter.mCursor 17) callerCpu = some c1 ∧
      c1.rip = 0xFFFF123456780000 ∧ c1.rsp = callerCpu.rsp ∧ c1.regs = callerCpu.regs :=
  ⟨⟨by decide, by decide, by decide⟩,
    C5_jump_reaches_target 0xFFFF123456780000 sentinelEmitter callerCpu (by decide) (by decide)
      (by decide)⟩

/-- C6: with the registers numbered in hardware order, the three bytes
`MoveRaxToRegister(r)` emits are the architecture's encoding of the 64-bit
move `r := RAX` (REX prefix `0x48` with the B bit set iff `r >= 8`, opcode
`0x89`, ModRM with mod = 3, reg = 0, rm = r mod 8), and the three bytes
`MoveRegisterToRax(r)` emits are the encoding of `RAX := r` (REX prefix `0x48`
with the R bit set iff `r >= 8`, opcode `0x89`, ModRM with mod = 3,
reg = r mod 8, rm = 0).  Both advance the cursor by three. -/
theorem C6_moves_match_architecture (r : Register) (s : Assembler) :
    (MoveRaxToRegister r s).state.mem.readBytes s.mCursor 3 =
      [rexW false (decide (8 ≤ r.ord)), 0x89, modRM 3 0 (r.ord % 8)] ∧
    (MoveRegisterToRax r s).state.mem.readBytes s.mCursor 3 =
      [rexW (decide (8 ≤ r.ord)) false, 0x89, modRM 3 (r.ord % 8) 0] ∧
    (MoveRaxToRegister r s).state.mCursor = s.mCursor + 3 ∧
    (MoveRegisterToRax r s).state.mCursor = s.mCursor + 3 ∧
    [Register.RAX, Register.RCX, Register.RDX, Register.RBX, Register.RSP, Register.RBP,
      Register.RSI, Register.RDI, Register.R8, Register.R9, Register.R10, Register.R11,
      Register.R12, Register.R13, Register.R14, Register.R15].map Register.ord =
      List.range 16 := by
  rw [MoveRaxToRegister_eq_emit, MoveRegisterToRax_eq_emit, emit_state, emit_state]
  exact ⟨Memory.readBytes_writeBytes (encodeMov64 r.ord Register.RAX.ord) s.mem s.mCursor,
    Memory.readBytes_writeBytes (encodeMov64 Register.RAX.ord r.ord) s.mem s.mCursor,
    rfl, rfl, rfl⟩

/-- C7 as stated fails at RCX, whose group offset is 1: the third byte of the
accumulator-to-register move `MoveRaxToRegister(RCX)` is `0xC1`, not
`0xC0 + 8 * 1`, and the third byte of the register-to-accumulator move
`MoveRegisterToRax(RCX)` is `0xC8`, not `0xC0 + 1`. -/
theorem C7_multiplier_on_other_move_counterexample :
    Register.RCX.groupOffset = 1 ∧
    (MoveRaxToRegister Register.RCX sentinelEmitter).state.mem (sentinelEmitter.mCursor + 2) =
      0xC1 ∧
    (MoveRaxToRegister Register.RCX sentinelEmitter).state.mem (sentinelEmitter.mCursor + 2) ≠
      0xC0 + 8 * Register.RCX.groupOffset ∧
    (MoveRegisterToRax Register.RCX sentinelEmitter).state.mem (sentinelEmitter.mCursor + 2) =
      0xC8 ∧
    (MoveRegisterToRax Register.RCX sentinelEmitter).state.mem (sentinelEmitter.mCursor + 2) ≠
      0xC0 + Register.RCX.groupOffset := by
  refine ⟨by decide, by decide, by decide, by decide, by decide⟩

/-- C7, amended: for every register `r` with group offset `k`, the third byte
of the accumulator-to-register move `MoveRaxToRegister(r)`, where `r` is the
destination, is `0xC0 + k`, and the third byte of the register-to-accumulator
move `MoveRegisterToRax(r)`, where `r` is the source, is `0xC0 + 8 * k`. -/
theorem C7_third_byte_of_moves (r : Register) (s : Assembler) :
    (MoveRaxToRegister r s).state.mem (s.mCursor + 2) = 0xC0 + r.groupOffset ∧
    (MoveRegisterToRax r s).state.mem (s.mCursor + 2) = 0xC0 + 8 * r.groupOffset := by
  have h1 := Memory.readBytes_writeBytes (encodeMov64 r.ord Register.RAX.ord) s.mem s.mCursor
  have h2 := Memory.readBytes_writeBytes (encodeMov64 Register.RAX.ord r.ord) s.mem s.mCursor
  rw [MoveRaxToRegister_eq_emit, MoveRegisterToRax_eq_emit, emit_state, emit_state]
  simp only [encodeMov64, List.length_cons, List.length_nil, Memory.readBytes,
    List.cons.injEq, and_true] at h1 h2
  refine ⟨h1.2.2.trans ?_, h2.2.2.trans ?_⟩ <;> cases r <;> rfl

/-- C8: with the registers numbered in hardware order, `PopRegister(r)` emits
for a low-group register (`r <= 7`) exactly the one byte `0x58 + r` and
advances the cursor by 1, and for an extended-group register (`r >= 8`)
exactly the two bytes `0x41`, `0x58 + (r - 8)` and advances the cursor by 2;
every value it hands to the emitter lies in `0 .. 255`, so nothing is
truncated.  The call completes exactly when the advanced cursor keeps the
margin. -/
theorem C8_PopRegister_encoding (r : Register) (s : Assembler) :
    (r.ord ≤ 7 →
      PopRegisterArgs r = [0x58 + (r.ord : Int)] ∧
      (PopRegister r s).state.mem.readBytes s.mCursor 1 = [0x58 + r.ord] ∧
      (PopRegister r s).state.mCursor = s.mCursor + 1 ∧
      (∀ a, a ≠ s.mCursor → (PopRegister r s).state.mem a = s.mem a) ∧
      (PopRegister r s).completes = decide (s.mCursor + 1 + 15 ≤ s.mCursorEnd)) ∧
    (8 ≤ r.ord →
      PopRegisterArgs r = [0x41, 0x58 + ((r.ord : Int) - 8)] ∧
      (PopRegister r s).state.mem.readBytes s.mCursor 2 = [0x41, 0x58 + (r.ord - 8)] ∧
      (PopRegister r s).state.mCursor = s.mCursor + 2 ∧
      (∀ a, a < s.mCursor ∨ s.mCursor + 2 ≤ a → (PopRegister r s).state.mem a = s.mem a) ∧
      (PopRegister r s).completes = decide (s.mCursor + 2 + 15 ≤ s.mCursorEnd)) ∧
    (∀ a ∈ PopRegisterArgs r, 0 ≤ a ∧ a < 256) := by
  refine ⟨fun hlo => ?_, fun hhi => ?_, ?_⟩
  · have e : PopRegister r s = emit [0x58 + r.ord] s := by
      rw [PopRegister_eq_emit, if_pos hlo]
    rw [e, emit_state, emit_completes]
    refine ⟨?_, Memory.readBytes_writeBytes [0x58 + r.ord] s.mem s.mCursor, rfl, ?_, rfl⟩
    · cases r <;> first | rfl | (exact absurd hlo (by decide))
    · intro a ha
      apply Memory.writeBytes_outside
      simp only [List.length_cons, List.length_nil]
      omega
  · have e : PopRegister r s = emit [0x41, 0x58 + (r.ord - 8)] s := by
      rw [PopRegister_eq_emit, if_neg (by omega)]
    rw [e, emit_state, emit_completes]
    refine ⟨?_, Memory.readBytes_writeBytes [0x41, 0x58 + (r.ord - 8)] s.mem s.mCursor, rfl,
      ?_, rfl⟩
    · cases r <;> first | rfl | (exact absurd hhi (by decide))
    · intro a ha
      exact Memory.writeBytes_outside _ _ _ _ ha
  · cases r <;> decide

/-- C8 at concrete inputs: RBX (number 3) and R10 (number 10) on the 64-byte
buffer. -/
theorem C8_PopRegister_encoding_witness :
    ((PopRegister Register.RBX sentinelEmitter).state.mem.readBytes 4096 1 = [0x5B] ∧
      (PopRegister Register.RBX sentinelEmitter).state.mCursor = 4097) ∧
    ((PopRegister Register.R10 sentinelEmitter).state.mem.readBytes 4096 2 = [0x41, 0x5A] ∧
      (PopRegister Register.R10 sentinelEmitter).state.mCursor = 4098) :=
  ⟨⟨((C8_PopRegister_encoding Register.RBX sentinelEmitter).1 (by decide)).2.1,
      ((C8_PopRegister_encoding Register.RBX sentinelEmitter).1 (by decide)).2.2.1⟩,
    ⟨((C8_PopRegister_encoding Register.R10 sentinelEmitter).2.1 (by decide)).2.1,
      ((C8_PopRegister_encoding Register.R10 sentinelEmitter).2.1 (by decide)).2.2.1⟩⟩

/-- C9: for every 64-bit value `V`, `MoveImmediateToRax(V)` writes exactly ten
bytes at the cursor, `48 B8` followed by the eight bytes of `V` least
significant first, leaves every other byte of memory as it was, and advances
the cursor by 10; the eight bytes read back as a little-endian integer give
`V`.  The call completes exactly when the advanced cursor keeps the margin. -/
theorem C9_MoveImmediateToRax_bytes (V : Nat) (s : Assembler) (hV : V < 2 ^ 64) :
    (MoveImmediateToRax V s).state.mem.readBytes s.mCursor 10 =
      [0x48, 0xB8, V % 256, V / 256 % 256, V / 256 ^ 2 % 256, V / 256 ^ 3 % 256,
        V / 256 ^ 4 % 256, V / 256 ^ 5 % 256, V / 256 ^ 6 % 256, V / 256 ^ 7 % 256] ∧
    (∀ a, a < s.mCursor ∨ s.mCursor + 10 ≤ a →
      (MoveImmediateToRax V s).state.mem a = s.mem a) ∧
    (MoveImmediateToRax V s).state.mCursor = s.mCursor + 10 ∧
    littleEndian ((MoveImmediateToRax V s).state.mem.readBytes (s.mCursor + 2) 8) = V ∧
    (MoveImmediateToRax V s).completes = decide (s.mCursor + 10 + 15 ≤ s.mCursorEnd) := by
  rw [MoveImmediateToRax_eq_emit, emit_state, emit_completes]
  refine ⟨Memory.readBytes_writeBytes (0x48 :: 0xB8 :: bytes64 V) s.mem s.mCursor, ?_, rfl, ?_,
    rfl⟩
  · intro a ha
    exact Memory.writeBytes_outside _ _ _ _ ha
  · have h := Memory.readBytes_writeBytes_mid [0x48, 0xB8] (bytes64 V) [] s.mem s.mCursor
    have e : littleEndian ((s.mem.writeBytes s.mCursor (0x48 :: 0xB8 :: bytes64 V)).readBytes
        (s.mCursor + 2) 8) = littleEndian (bytes64 V) := congrArg littleEndian h
    rw [littleEndian_bytes64, Nat.mod_eq_of_lt hV] at e
    exact e

/-- C9 at a concrete input: the value `0xDEADBEEF` on the 64-byte buffer. -/
theorem C9_MoveImmediateToRax_bytes_witness :
    0xDEADBEEF < 2 ^ 64 ∧
    (MoveImmediateToRax 0xDEADBEEF sentinelEmitter).state.mem.readBytes 4096 10 =
      [0x48, 0xB8, 0xEF, 0xBE, 0xAD, 0xDE, 0, 0, 0, 0] ∧
    (MoveImmediateToRax 0xDEADBEEF sentinelEmitter).state.mCursor = 4106 ∧
    littleEndian ((MoveImmediateToRax 0xDEADBEEF sentinelEmitter).state.mem.readBytes 4098 8) =
      0xDEADBEEF :=
  ⟨by decide, (C9_MoveImmediateToRax_bytes 0xDEADBEEF sentinelEmitter (by decide)).1,
    (C9_MoveImmediateToRax_bytes 0xDEADBEEF sentinelEmitter (by decide)).2.2.1,
    (C9_MoveImmediateToRax_bytes 0xDEADBEEF sentinelEmitter (by decide)).2.2.2.1⟩

/-- C10: for every 64-bit value `V`, `PushImmediate(V)` is four `Push16` calls
on the chunks of bits 63..48, 47..32, 31..16 and 15..0 of `V`, in this order;
when it completes, the sixteen bytes from the initial cursor are the four
groups `66 68 lo hi` of these chunks and the cursor has advanced by 16;
putting the four chunks together, most significant first, gives back `V`. -/
theorem C10_PushImmediate_chunks (V : Nat) (s : Assembler) (hV : V < 2 ^ 64)
    (h : (PushImmediate V s).completes = true) :
    (PushImmediate V s =
      (Push16 (chunk16 V 3) s).bind fun _ s1 =>
      (Push16 (chunk16 V 2) s1).bind fun _ s2 =>
      (Push16 (chunk16 V 1) s2).bind fun _ s3 =>
      Push16 (chunk16 V 0) s3) ∧
    (PushImmediate V s).state.mem.readBytes s.mCursor 16 =
      [0x66, 0x68, chunk16 V 3 % 256, chunk16 V 3 / 256,
       0x66, 0x68, chunk16 V 2 % 256, chunk16 V 2 / 256,
       0x66, 0x68, chunk16 V 1 % 256, chunk16 V 1 / 256,
       0x66, 0x68, chunk16 V 0 % 256, chunk16 V 0 / 256] ∧
    (PushImmediate V s).state.mCursor = s.mCursor + 16 ∧
    (chunk16 V 3 < 2 ^ 16 ∧ chunk16 V 2 < 2 ^ 16 ∧ chunk16 V 1 < 2 ^ 16 ∧ chunk16 V 0 < 2 ^ 16) ∧
    chunk16 V 3 * 2 ^ 48 + chunk16 V 2 * 2 ^ 32 + chunk16 V 1 * 2 ^ 16 + chunk16 V 0 = V := by
  rw [PushImmediate_completes, decide_eq_true_eq] at h
  refine ⟨?_, ?_, ?_, ?_, ?_⟩
  · obtain ⟨e3, e2, e1, e0⟩ := chunk16_shift V
    simp only [PushImmediate, Push16_eq_emit, e3, e2, e1, e0, chunk16_mod]
  · rw [PushImmediate_state V s h]
    exact Memory.readBytes_writeBytes (pushImmediateBytes V) s.mem s.mCursor
  · rw [PushImmediate_state V s h]
  · simp only [chunk16]
    norm_num
    omega
  · simp only [chunk16]
    norm_num at hV ⊢
    omega

/-- C10 at a concrete input: the value `0x1122334455667788` on the 64-byte
buffer. -/
theorem C10_PushImmediate_chunks_witness :
    (0x1122334455667788 < 2 ^ 64 ∧
      (PushImmediate 0x1122334455667788 sentinelEmitter).completes = true) ∧
    (PushImmediate 0x1122334455667788 sentinelEmitter).state.mem.readBytes 4096 16 =
      [0x66, 0x68, 0x22, 0x11, 0x66, 0x68, 0x44, 0x33,
       0x66, 0x68, 0x66, 0x55, 0x66, 0x68, 0x88, 0x77] ∧
    (PushImmediate 0x1122334455667788 sentinelEmitter).state.mCursor = 4112 :=
  ⟨⟨by decide, by decide⟩,
    (C10_PushImmediate_chunks 0x1122334455667788 sentinelEmitter (by decide) (by decide)).2.1,
    (C10_PushImmediate_chunks 0x1122334455667788 sentinelEmitter (by decide) (by decide)).2.2.1⟩

/-! ## Lemmas about the margin and the end of the buffer -/

theorem Safe_Advance (n : Nat) (s : Assembler) : Safe s (Advance n s) := by
  refine ⟨?_, ?_, ?_, ?_⟩
  · rw [Advance_state]; exact Nat.le_add_right _ _
  · rw [Advance_state]
  · intro h
    rw [Advance_completes, decide_eq_true_eq] at h
    rw [Advance_state]
    exact h
  · intro _ a _
    rw [Advance_state]

theorem Safe_emit (bs : List Nat) (hlen : bs.length ≤ 15) (s : Assembler) :
    Safe s (emit bs s) := by
  refine ⟨?_, ?_, ?_, ?_⟩
  · rw [emit_state]; exact Nat.le_add_right _ _
  · rw [emit_state]
  · intro h
    rw [emit_completes, decide_eq_true_eq] at h
    rw [emit_state]
    exact h
  · intro hs a ha
    rw [emit_state]
    exact Memory.writeBytes_outside bs s.mem s.mCursor a (Or.inr (by omega))

theorem Safe_done {α : Type} (r : α) (t : Assembler) (h : t.mCursor + 15 ≤ t.mCursorEnd) :
    Safe t (Outcome.done r t) :=
  ⟨Nat.le_refl _, rfl, fun _ => h, fun _ _ _ => rfl⟩

theorem Safe_abort {α : Type} (t : Assembler) : Safe t (Outcome.abort t : Outcome α) :=
  ⟨Nat.le_refl _, rfl, fun h => absurd h (by simp [Outcome.completes]), fun _ _ _ => rfl⟩

/-- Sequencing keeps the guarantees: the second operation only runs from a
state in which the first has left the margin. -/
theorem Safe_bind {β : Type} (s : Assembler) (o : Outcome Unit)
    (f : Unit → Assembler → Outcome β) (ho : Safe s o)
    (hf : o.completes = true → o.state.mCursor + 15 ≤ o.state.mCursorEnd →
      Safe o.state (f () o.state)) :
    Safe s (o.bind f) := by
  cases o with
  | abort t => exact ho
  | done u t =>
    obtain ⟨h1, h2, h3, h4⟩ := ho
    obtain ⟨g1, g2, g3, g4⟩ := hf rfl (h3 rfl)
    simp only [Outcome.state_done] at h1 h2 h3 h4 g1 g2 g3 g4
    refine ⟨Nat.le_trans h1 g1, g2.trans h2, g3, ?_⟩
    intro hs a ha
    have e1 : (f () t).state.mem a = t.mem a := g4 (h3 rfl) a (by rw [h2]; exact ha)
    exact e1.trans (h4 hs a ha)

theorem Safe_NewInstruction (aBytes : List Int) (hlen : aBytes.length ≤ 15) (s : Assembler) :
    Safe s (NewInstruction aBytes s) := by
  rw [NewInstruction_eq_emit]
  exact Safe_emit _ (by rw [List.length_map]; exact hlen) s

theorem Safe_Push16 (v : Nat) (s : Assembler) : Safe s (Push16 v s) := by
  rw [Push16_eq_emit]
  exact Safe_emit _ (by simp [push16Bytes, bytes64, encodeMov64]) s

theorem Safe_MoveImmediateToRax (v : Nat) (s : Assembler) :
    Safe s (MoveImmediateToRax v s) := by
  rw [MoveImmediateToRax_eq_emit]
  exact Safe_emit _ (by simp [push16Bytes, bytes64, encodeMov64]) s

theorem Safe_MoveRaxToRegister (r : Register) (s : Assembler) :
    Safe s (MoveRaxToRegister r s) := by
  rw [MoveRaxToRegister_eq_emit]
  exact Safe_emit _ (by simp [push16Bytes, bytes64, encodeMov64]) s

theorem Safe_MoveRegisterToRax (r : Register) (s : Assembler) :
    Safe s (MoveRegisterToRax r s) := by
  rw [MoveRegisterToRax_eq_emit]
  exact Safe_emit _ (by simp [push16Bytes, bytes64, encodeMov64]) s

theorem Safe_PopRegister (r : Register) (s : Assembler) : Safe s (PopRegister r s) := by
  rw [PopRegister_eq_emit]
  exact Safe_emit _ (by split <;> simp) s

theorem Safe_PushImmediate (v : Nat) (s : Assembler) : Safe s (PushImmediate v s) := by
  unfold PushImmediate
  exact Safe_bind _ _ _ (Safe_Push16 _ _) fun _ _ =>
    Safe_bind _ _ _ (Safe_Push16 _ _) fun _ _ =>
    Safe_bind _ _ _ (Safe_Push16 _ _) fun _ _ => Safe_Push16 _ _

theorem Safe_Jump (t : Nat) (s : Assembler) : Safe s (Jump t s) := by
  unfold Jump
  exact Safe_bind _ _ _ (Safe_PushImmediate _ _) fun _ _ => Safe_NewInstruction _ (by decide) _

theorem Safe_moveArgument (p : Nat) (s : Assembler) :
    Safe s (BindFunctionArgument.moveArgument p s) := by
  rcases moveArgument_cases p with ⟨_, h⟩ | ⟨_, h⟩ | ⟨_, h⟩ | ⟨_, h⟩
  · rw [h]; exact Safe_emit _ (by simp [push16Bytes, bytes64, encodeMov64]) s
  · rw [h]; exact Safe_emit _ (by simp [push16Bytes, bytes64, encodeMov64]) s
  · rw [h]; exact Safe_emit _ (by simp [push16Bytes, bytes64, encodeMov64]) s
  · rw [h]; exact Safe_abort s

theorem Safe_BindFunctionArgument (f v p : Nat) (s : Assembler) :
    Safe s (BindFunctionArgument f v p s) := by
  unfold BindFunctionArgument
  exact Safe_bind _ _ _ (Safe_MoveImmediateToRax _ _) fun _ _ =>
    Safe_bind _ _ _ (Safe_moveArgument _ _) fun _ _ =>
    Safe_bind _ _ _ (Safe_Jump _ _) fun _ h => Safe_done _ _ h

theorem emit_bind_cursor {β : Type} (bs : List Nat) (f : Unit → Assembler → Outcome β)
    (s : Assembler) :
    ((emit bs s).bind f).state.mCursor =
      if s.mCursor + bs.length + 15 ≤ s.mCursorEnd then (f () (emit bs s).state).state.mCursor
      else s.mCursor + bs.length := by
  rw [Outcome.bind_state, emit_completes]
  by_cases h : s.mCursor + bs.length + 15 ≤ s.mCursorEnd
  · simp only [h, decide_True, if_true]
  · simp only [h, decide_False, if_false, emit_state, Bool.false_eq_true]

/-- Where the cursor stands when `PushImmediate` stops: after the first push
whose capacity check fails, or after the fourth. -/
theorem PushImmediate_cursor (v : Nat) (s : Assembler) :
    (PushImmediate v s).state.mCursor =
      if s.mCursor + 4 + 15 ≤ s.mCursorEnd then
        if s.mCursor + 8 + 15 ≤ s.mCursorEnd then
          if s.mCursor + 12 + 15 ≤ s.mCursorEnd then s.mCursor + 16
          else s.mCursor + 12
        else s.mCursor + 8
      else s.mCursor + 4 := by
  unfold PushImmediate
  simp only [Push16_eq_emit, emit_bind_cursor, emit_state, push16Bytes, List.length_cons,
    List.length_nil, Nat.zero_add, Nat.reduceAdd, Nat.add_assoc]

/-- Where the cursor stands when `Jump` stops. -/
theorem Jump_cursor (t : Nat) (s : Assembler) :
    (Jump t s).state.mCursor =
      if s.mCursor + 4 + 15 ≤ s.mCursorEnd then
        if s.mCursor + 8 + 15 ≤ s.mCursorEnd then
          if s.mCursor + 12 + 15 ≤ s.mCursorEnd then
            if s.mCursor + 16 + 15 ≤ s.mCursorEnd then s.mCursor + 17
            else s.mCursor + 16
          else s.mCursor + 12
        else s.mCursor + 8
      else s.mCursor + 4 := by
  unfold Jump
  rw [Outcome.bind_state, PushImmediate_completes]
  by_cases h : s.mCursor + 31 ≤ s.mCursorEnd
  · have h1 : s.mCursor + 4 + 15 ≤ s.mCursorEnd := by omega
    have h2 : s.mCursor + 8 + 15 ≤ s.mCursorEnd := by omega
    have h3 : s.mCursor + 12 + 15 ≤ s.mCursorEnd := by omega
    have h4 : s.mCursor + 16 + 15 ≤ s.mCursorEnd := by omega
    rw [if_pos (by simpa using h), PushImmediate_state t s h, Return_eq_emit, emit_state,
      if_pos h1, if_pos h2, if_pos h3, if_pos h4]
    rfl
  · have h4 : ¬ s.mCursor + 16 + 15 ≤ s.mCursorEnd := by omega
    rw [if_neg (by simpa using h), PushImmediate_cursor]
    split_ifs <;> rfl

/-- Where the cursor stands when the generator stops, for an accepted
position: after the first instruction whose capacity check fails, or after
the last one. -/
theorem BindFunctionArgument_cursor (f v p m : Nat) (s : Assembler)
    (hm : ∀ s1, BindFunctionArgument.moveArgument p s1 = emit [0x48, 0x89, m] s1) :
    (BindFunctionArgument f v p s).state.mCursor =
      if s.mCursor + 10 + 15 ≤ s.mCursorEnd then
        if s.mCursor + 13 + 15 ≤ s.mCursorEnd then
          if s.mCursor + 17 + 15 ≤ s.mCursorEnd then
            if s.mCursor + 21 + 15 ≤ s.mCursorEnd then
              if s.mCursor + 25 + 15 ≤ s.mCursorEnd then
                if s.mCursor + 29 + 15 ≤ s.mCursorEnd then s.mCursor + 30
                else s.mCursor + 29
              else s.mCursor + 25
            else s.mCursor + 21
          else s.mCursor + 17
        else s.mCursor + 13
      else s.mCursor + 10 := by
  have hj : ∀ s2 : Assembler, ((Jump f s2).bind fun _ s3 =>
      (Outcome.done (Current s) s3 : Outcome Nat)).state.mCursor = (Jump f s2).state.mCursor := by
    intro s2
    rw [Outcome.bind_state]
    split <;> rfl
  unfold BindFunctionArgument
  simp only [MoveImmediateToRax_eq_emit, hm, emit_bind_cursor, emit_state, hj, Jump_cursor,
    bytes64, List.length_cons, List.length_nil, Nat.zero_add, Nat.reduceAdd, Nat.add_assoc]

theorem decodeAll_step (fuel : Nat) (b : Nat) (bs rest : List Nat) (i : Instr)
    (h : decode (b :: bs) = some (i, rest)) :
    decodeAll (fuel + 1) (b :: bs) = (decodeAll fuel rest).map fun is => i :: is := by
  rw [decodeAll, h]

/-- The instructions of a trampoline whose move has ModRM byte `0xC0 + d`. -/
theorem decodeAll_trampolineBytes (f v d : Nat) (hd : d < 8) :
    decodeAll 30 (trampolineBytes f v (0xC0 + d)) =
      some [Instr.movImm64 0 (littleEndian (bytes64 v)), Instr.mov64 d 0,
        Instr.push16 (chunk16 f 3 % 256) (chunk16 f 3 / 256),
        Instr.push16 (chunk16 f 2 % 256) (chunk16 f 2 / 256),
        Instr.push16 (chunk16 f 1 % 256) (chunk16 f 1 / 256),
        Instr.push16 (chunk16 f 0 % 256) (chunk16 f 0 / 256), Instr.ret] := by
  simp only [trampolineBytes, bytes64, pushImmediateBytes, push16Bytes, List.cons_append,
    List.nil_append, List.append_assoc]
  rw [decodeAll_step 29 _ _ _ _ (decode_movImm64 _ _ _ _ _ _ _ _ _),
    decodeAll_step 28 _ _ _ _ (decode_mov64 d hd _),
    decodeAll_step 27 _ _ _ _ (decode_push16 _ _ _),
    decodeAll_step 26 _ _ _ _ (decode_push16 _ _ _),
    decodeAll_step 25 _ _ _ _ (decode_push16 _ _ _),
    decodeAll_step 24 _ _ _ _ (decode_push16 _ _ _),
    decodeAll_step 23 _ _ _ _ (decode_ret _)]
  rfl

/-- The guarantees of `Safe` for every operation of the emitter itself. -/
theorem Safe_operations (s : Assembler) (n v : Nat) (r : Register) :
    ∀ o ∈ [Advance n s, Push16 v s, PushImmediate v s, Jump v s, Return s, Breakpoint s,
      PushRax s, PopRax s, PopRegister r s, MoveImmediateToRax v s, MoveRaxToRegister r s,
      MoveRegisterToRax r s], Safe s o := by
  intro o ho
  simp only [List.mem_cons, List.mem_singleton, List.not_mem_nil, or_false] at ho
  rcases ho with h | h | h | h | h | h | h | h | h | h | h | h <;> subst h
  · exact Safe_Advance _ _
  · exact Safe_Push16 _ _
  · exact Safe_PushImmediate _ _
  · exact Safe_Jump _ _
  · exact Safe_NewInstruction _ (by decide) _
  · exact Safe_NewInstruction _ (by decide) _
  · exact Safe_NewInstruction _ (by decide) _
  · exact Safe_NewInstruction _ (by decide) _
  · exact Safe_PopRegister _ _
  · exact Safe_MoveImmediateToRax _ _
  · exact Safe_MoveRaxToRegister _ _
  · exact Safe_MoveRegisterToRax _ _

/-- What an `emit` of a single byte does. -/
theorem emit_single (b : Nat) (s : Assembler) :
    (emit [b] s).state.mem s.mCursor = b ∧
    (∀ a, a ≠ s.mCursor → (emit [b] s).state.mem a = s.mem a) ∧
    (emit [b] s).state.mCursor = s.mCursor + 1 ∧
    (emit [b] s).completes = decide (s.mCursor + 1 + 15 ≤ s.mCursorEnd) := by
  rw [emit_state, emit_completes]
  refine ⟨Memory.write_same _ _ _, fun a ha => Memory.write_other _ _ _ _ ha, rfl, rfl⟩

theorem Breakpoint_eq_emit (s : Assembler) : Breakpoint s = emit [0xCC] s := by
  rw [Breakpoint, NewInstruction_eq_emit]; rfl

theorem PushRax_eq_emit (s : Assembler) : PushRax s = emit [0x50] s := by
  rw [PushRax, NewInstruction_eq_emit]; rfl

theorem PopRax_eq_emit (s : Assembler) : PopRax s = emit [0x58] s := by
  rw [PopRax, NewInstruction_eq_emit]; rfl

/-- Whether the generator completes, for every position. -/
theorem BindFunctionArgument_completes (f v p : Nat) (s : Assembler) :
    (BindFunctionArgument f v p s).completes =
      decide ((p = 1 ∨ p = 2 ∨ p = 3) ∧ s.mCursor + 45 ≤ s.mCursorEnd) := by
  rcases moveArgument_cases p with ⟨hp, hm⟩ | ⟨hp, hm⟩ | ⟨hp, hm⟩ | ⟨hp, _⟩
  · rw [(BindFunctionArgument_accepted f v p _ s hm).1]; simp [hp]
  · rw [(BindFunctionArgument_accepted f v p _ s hm).1]; simp [hp]
  · rw [(BindFunctionArgument_accepted f v p _ s hm).1]; simp [hp]
  · rw [(BindFunctionArgument_rejected f v p s hp).1]
    have : ¬ (p = 1 ∨ p = 2 ∨ p = 3) := by omega
    simp [this]

/-- Inside the address space the wrap-around plays no part: `Advance64` and
`Advance` are the same function. -/
theorem Advance64_eq_Advance (n : Nat) (s : Assembler) (h : s.mCursor + n + 15 < 2 ^ 64) :
    Advance64 n s = Advance n s := by
  have h1 : (s.mCursor + n) % 2 ^ 64 = s.mCursor + n :=
    Nat.mod_eq_of_lt (Nat.lt_of_le_of_lt (Nat.le_add_right _ 15) h)
  have h2 : (s.mCursor + n + 15) % 2 ^ 64 = s.mCursor + n + 15 := Nat.mod_eq_of_lt h
  simp only [Advance64, Advance, MaximumInstructionLength, h1, h2]

/-! ## The claims, continued -/

/-- C11 as stated fails for an advance that wraps around the address space.
In the 64-byte buffer at 4096, `Advance(2^64 - 1)` has `c + n + 15` far above
`e`, yet on the 64-bit machine the call returns normally, and it leaves the
cursor at 4095, not at `c + n`. -/
theorem C11_advance_wraps_counterexample :
    ¬ (sentinelEmitter.mCursor + (2 ^ 64 - 1) + 15 ≤ sentinelEmitter.mCursorEnd) ∧
    (Advance64 (2 ^ 64 - 1) sentinelEmitter).completes = true ∧
    (Advance64 (2 ^ 64 - 1) sentinelEmitter).state.mCursor = 4095 ∧
    (Advance64 (2 ^ 64 - 1) sentinelEmitter).state.mCursor ≠
      sentinelEmitter.mCursor + (2 ^ 64 - 1) := by
  refine ⟨by decide, by decide, by decide, by decide⟩

/-- C11, amended: for every emitter state with cursor `c` and end `e` and
every `n` with `c + n + 15 < 2 ^ 64`, so that the advance stays inside the
64-bit address space, `Advance(n)` succeeds exactly when `c + n + 15 <= e`; it
leaves the cursor at `c + n` and touches neither the end pointer nor memory.
In particular the advance to `c + n = e - 15` succeeds and the advance one
byte further, to `c + n = e - 14`, fails the capacity assertion. -/
theorem C11_Advance64_capacity (s : Assembler) (n : Nat)
    (hn : s.mCursor + n + 15 < 2 ^ 64) :
    ((Advance64 n s).completes = true ↔ s.mCursor + n + 15 ≤ s.mCursorEnd) ∧
    (Advance64 n s).state.mCursor = s.mCursor + n ∧
    (Advance64 n s).state.mCursorEnd = s.mCursorEnd ∧
    (Advance64 n s).state.mem = s.mem ∧
    (s.mCursor + n + 15 = s.mCursorEnd → (Advance64 n s).completes = true) ∧
    (s.mCursor + n + 14 = s.mCursorEnd → (Advance64 n s).completes = false) := by
  rw [Advance64_eq_Advance n s hn, Advance_completes, Advance_state]
  refine ⟨by simp, rfl, rfl, rfl, fun h => by simp; omega, fun h => by simp; omega⟩

/-- C11 amended, at concrete inputs: in the 64-byte buffer at 4096 the advance
by 49 reaches `e - 15` and succeeds, the advance by 50 reaches `e - 14` and
aborts. -/
theorem C11_Advance64_capacity_witness :
    (sentinelEmitter.mCursor + 49 + 15 < 2 ^ 64 ∧
      sentinelEmitter.mCursor + 49 + 15 = sentinelEmitter.mCursorEnd ∧
      (Advance64 49 sentinelEmitter).completes = true ∧
      (Advance64 49 sentinelEmitter).state.mCursor = sentinelEmitter.mCursor + 49) ∧
    (sentinelEmitter.mCursor + 50 + 15 < 2 ^ 64 ∧
      sentinelEmitter.mCursor + 50 + 14 = sentinelEmitter.mCursorEnd ∧
      (Advance64 50 sentinelEmitter).completes = false) :=
  ⟨⟨by decide, by decide,
      (C11_Advance64_capacity sentinelEmitter 49 (by decide)).2.2.2.2.1 (by decide),
      (C11_Advance64_capacity sentinelEmitter 49 (by decide)).2.1⟩,
    ⟨by decide, by decide,
      (C11_Advance64_capacity sentinelEmitter 50 (by decide)).2.2.2.2.2 (by decide)⟩⟩

/-- C12 as stated fails for `Advance` when the advance wraps around the
address space.  In the 64-byte buffer at 4096, `Advance(2^64 - 1)` returns
normally on the 64-bit machine and leaves the cursor at 4095, below the 4096
it started from: the cursor has decreased. -/
theorem C12_cursor_moves_back_counterexample :
    (Advance64 (2 ^ 64 - 1) sentinelEmitter).completes = true ∧
    (Advance64 (2 ^ 64 - 1) sentinelEmitter).state.mCursor < sentinelEmitter.mCursor ∧
    sentinelEmitter.mCursor = 4096 ∧
    (Advance64 (2 ^ 64 - 1) sentinelEmitter).state.mCursor = 4095 := by
  refine ⟨by decide, by decide, by decide, by decide⟩

/-- C12, amended: for every emitter state, also one whose buffer is shorter
than the margin, every operation that returns normally (`Advance(n)` with
`c + n + 15 < 2 ^ 64`, so that it stays inside the address space, `Push16`,
`PushImmediate`, `Jump`, `Return`, `Breakpoint`, `PushRax`, `PopRax`,
`PopRegister`, `MoveImmediateToRax`, `MoveRaxToRegister`, `MoveRegisterToRax`,
`BindFunctionArgument`) leaves `cursor + 15 <= end`; and whether it returns or
aborts, it never moves the cursor back and never changes the end pointer. -/
theorem C12_margin_invariant_in_address_space (s : Assembler) (n v : Nat) (r : Register)
    (F V p : Nat) (hn : s.mCursor + n + 15 < 2 ^ 64) :
    (∀ o ∈ [Advance64 n s, Push16 v s, PushImmediate v s, Jump v s, Return s, Breakpoint s,
        PushRax s, PopRax s, PopRegister r s, MoveImmediateToRax v s, MoveRaxToRegister r s,
        MoveRegisterToRax r s],
      (o.completes = true → o.state.mCursor + 15 ≤ o.state.mCursorEnd) ∧
      s.mCursor ≤ o.state.mCursor ∧ o.state.mCursorEnd = s.mCursorEnd) ∧
    ((BindFunctionArgument F V p s).completes = true →
      (BindFunctionArgument F V p s).state.mCursor + 15 ≤
        (BindFunctionArgument F V p s).state.mCursorEnd) ∧
    s.mCursor ≤ (BindFunctionArgument F V p s).state.mCursor ∧
    (BindFunctionArgument F V p s).state.mCursorEnd = s.mCursorEnd := by
  refine ⟨fun o ho => ?_, ?_⟩
  · have hs : Safe s o := by
      rw [List.mem_cons] at ho
      rcases ho with h | h
      · rw [h, Advance64_eq_Advance n s hn]
        exact Safe_Advance n s
      · exact Safe_operations s n v r o (List.mem_cons_of_mem _ h)
    obtain ⟨h1, h2, h3, _⟩ := hs
    exact ⟨h3, h1, h2⟩
  · obtain ⟨h1, h2, h3, _⟩ := Safe_BindFunctionArgument F V p s
    exact ⟨h3, h1, h2⟩

/-- C12 amended, at concrete inputs: a completed advance, a completed jump and
a completed trampoline in the 64-byte buffer leave the margin, and so does,
vacuously, every operation on a fresh emitter over a 10-byte buffer, where
`Return` aborts. -/
theorem C12_margin_invariant_in_address_space_witness :
    (sentinelEmitter.mCursor + 49 + 15 < 2 ^ 64 ∧
      (Advance64 49 sentinelEmitter).completes = true ∧
      (Advance64 49 sentinelEmitter).state.mCursor + 15 ≤
        (Advance64 49 sentinelEmitter).state.mCursorEnd ∧
      sentinelEmitter.mCursor ≤ (Advance64 49 sentinelEmitter).state.mCursor) ∧
    ((Jump 0x1122334455667788 sentinelEmitter).completes = true ∧
      (Jump 0x1122334455667788 sentinelEmitter).state.mCursor + 15 ≤
        (Jump 0x1122334455667788 sentinelEmitter).state.mCursorEnd) ∧
    ((BindFunctionArgument 0x1122334455667788 0xDEADBEEF 2 sentinelEmitter).completes = true ∧
      (BindFunctionArgument 0x1122334455667788 0xDEADBEEF 2 sentinelEmitter).state.mCursor + 15 ≤
        (BindFunctionArgument 0x1122334455667788 0xDEADBEEF 2 sentinelEmitter).state.mCursorEnd) ∧
    ((freshEmitter 10).mCursor + 0 + 15 < 2 ^ 64 ∧
      (Return (freshEmitter 10)).completes = false ∧
      (Return (freshEmitter 10)).state.mCursorEnd = (freshEmitter 10).mCursorEnd) :=
  ⟨⟨by decide, by decide,
      ((C12_margin_invariant_in_address_space sentinelEmitter 49 0 Register.RAX 0 0 0
        (by decide)).1 (Advance64 49 sentinelEmitter) (by simp)).1 (by decide),
      ((C12_margin_invariant_in_address_space sentinelEmitter 49 0 Register.RAX 0 0 0
        (by decide)).1 (Advance64 49 sentinelEmitter) (by simp)).2.1⟩,
    ⟨by decide,
      ((C12_margin_invariant_in_address_space sentinelEmitter 0 0x1122334455667788 Register.RAX
        0 0 0 (by decide)).1 (Jump 0x1122334455667788 sentinelEmitter) (by simp)).1 (by decide)⟩,
    ⟨by decide,
      (C12_margin_invariant_in_address_space sentinelEmitter 0 0 Register.RAX 0x1122334455667788
        0xDEADBEEF 2 (by decide)).2.1 (by decide)⟩,
    ⟨by decide, by decide,
      ((C12_margin_invariant_in_address_space (freshEmitter 10) 0 0 Register.RAX 0 0 0
        (by decide)).1 (Return (freshEmitter 10)) (by simp)).2.2⟩⟩

/-- C13: if `cursor + 15 <= end` holds when an operation starts, no byte at
or beyond the end pointer is changed by it, whether it returns or aborts on
its capacity check: every byte it writes lies below `end`.  This holds for
each primitive and for the composites `PushImmediate`, `Jump` and
`BindFunctionArgument`. -/
theorem C13_writes_stay_below_end (s : Assembler) (n v : Nat) (r : Register) (F V p : Nat)
    (h : s.mCursor + 15 ≤ s.mCursorEnd) :
    (∀ o ∈ [Advance n s, Push16 v s, PushImmediate v s, Jump v s, Return s, Breakpoint s,
        PushRax s, PopRax s, PopRegister r s, MoveImmediateToRax v s, MoveRaxToRegister r s,
        MoveRegisterToRax r s],
      ∀ a, s.mCursorEnd ≤ a → o.state.mem a = s.mem a) ∧
    (∀ a, s.mCursorEnd ≤ a → (BindFunctionArgument F V p s).state.mem a = s.mem a) :=
  ⟨fun o ho => (Safe_operations s n v r o ho).2.2.2 h,
    (Safe_BindFunctionArgument F V p s).2.2.2 h⟩

/-- C13 at concrete inputs: in a 40-byte buffer the trampoline generator
aborts on a capacity check after the third push, and the byte at the end
pointer is still the sentinel; so it is after a jump that aborts in a 20-byte
buffer. -/
theorem C13_writes_stay_below_end_witness :
    ((freshEmitter 40).mCursor + 15 ≤ (freshEmitter 40).mCursorEnd ∧
      (BindFunctionArgument 0x1122334455667788 0xDEADBEEF 1 (freshEmitter 40)).completes = false ∧
      (BindFunctionArgument 0x1122334455667788 0xDEADBEEF 1 (freshEmitter 40)).state.mem
        (freshEmitter 40).mCursorEnd = (freshEmitter 40).mem (freshEmitter 40).mCursorEnd) ∧
    ((freshEmitter 20).mCursor + 15 ≤ (freshEmitter 20).mCursorEnd ∧
      (Jump 0x1122334455667788 (freshEmitter 20)).completes = false ∧
      (Jump 0x1122334455667788 (freshEmitter 20)).state.mem (freshEmitter 20).mCursorEnd =
        (freshEmitter 20).mem (freshEmitter 20).mCursorEnd) :=
  ⟨⟨by decide, by decide,
      (C13_writes_stay_below_end (freshEmitter 40) 0 0 Register.RAX 0x1122334455667788
        0xDEADBEEF 1 (by decide)).2 _ (Nat.le_refl _)⟩,
    ⟨by decide, by decide,
      (C13_writes_stay_below_end (freshEmitter 20) 0 0x1122334455667788 Register.RAX 0 0 0
        (by decide)).1 (Jump 0x1122334455667788 (freshEmitter 20)) (by simp) _ (Nat.le_refl _)⟩⟩

/-- C14: whenever `BindFunctionArgument` completes from the cursor `c`, every
byte of memory at an address below `c` or at or above `c + 30` has the value
it had before the call. -/
theorem C14_bytes_outside_trampoline_unchanged (F V p r : Nat) (s t : Assembler)
    (h : BindFunctionArgument F V p s = Outcome.done r t) :
    ∀ a, a < s.mCursor ∨ s.mCursor + 30 ≤ a → t.mem a = s.mem a := by
  obtain ⟨m, _, _, _, ht⟩ := BindFunctionArgument_done F V p r s t h
  subst ht
  intro a ha
  exact Memory.writeBytes_outside (trampolineBytes F V m) s.mem s.mCursor a ha

/-- C14 in the scenario of the specification: the 64-byte buffer filled with
the sentinel, the value `0xDEADBEEF` bound at position 2; every byte outside
the thirty generated ones, so the bytes 30..63 of the buffer, is still the
sentinel `0xAA`. -/
theorem C14_bytes_outside_trampoline_unchanged_witness :
    BindFunctionArgument 0x1122334455667788 0xDEADBEEF 2 sentinelEmitter =
      Outcome.done 4096
        (BindFunctionArgument 0x1122334455667788 0xDEADBEEF 2 sentinelEmitter).state ∧
    ∀ a, a < 4096 ∨ 4096 + 30 ≤ a →
      (BindFunctionArgument 0x1122334455667788 0xDEADBEEF 2 sentinelEmitter).state.mem a = 0xAA :=
  ⟨rfl, C14_bytes_outside_trampoline_unchanged 0x1122334455667788 0xDEADBEEF 2 4096
    sentinelEmitter (BindFunctionArgument 0x1122334455667788 0xDEADBEEF 2 sentinelEmitter).state
    rfl⟩

/-- C15: whenever the operations complete, `Jump` advances the cursor by
exactly 17, of which 16 are the pushed chunks and 1 is the return, and
`MoveImmediateToRax` followed by `MoveRaxToRegister` advances it by exactly
13, that is 10 and then 3. -/
theorem C15_cursor_advances (T V : Nat) (r : Register) (s : Assembler) :
    ((Jump T s).completes = true →
      (PushImmediate T s).state.mCursor = s.mCursor + 16 ∧
      (Jump T s).state.mCursor = s.mCursor + 17) ∧
    (((MoveImmediateToRax V s).bind fun _ s1 => MoveRaxToRegister r s1).completes = true →
      (MoveImmediateToRax V s).state.mCursor = s.mCursor + 10 ∧
      ((MoveImmediateToRax V s).bind fun _ s1 => MoveRaxToRegister r s1).state.mCursor =
        s.mCursor + 13) := by
  constructor
  · intro h
    rw [Jump_completes, decide_eq_true_eq] at h
    rw [Jump_state T s h, PushImmediate_state T s (by omega)]
    exact ⟨rfl, rfl⟩
  · intro h
    rw [Outcome.bind_completes, Bool.and_eq_true] at h
    rw [Outcome.bind_state, if_pos h.1]
    rw [MoveImmediateToRax_eq_emit, MoveRaxToRegister_eq_emit, emit_state, emit_state]
    exact ⟨rfl, rfl⟩

/-- C15 at concrete inputs, in the 64-byte buffer at 4096. -/
theorem C15_cursor_advances_witness :
    ((Jump 0x1122334455667788 sentinelEmitter).completes = true ∧
      (Jump 0x1122334455667788 sentinelEmitter).state.mCursor = 4096 + 17) ∧
    (((MoveImmediateToRax 0xDEADBEEF sentinelEmitter).bind fun _ s1 =>
        MoveRaxToRegister Register.R9 s1).completes = true ∧
      ((MoveImmediateToRax 0xDEADBEEF sentinelEmitter).bind fun _ s1 =>
        MoveRaxToRegister Register.R9 s1).state.mCursor = 4096 + 13) :=
  ⟨⟨by decide,
      ((C15_cursor_advances 0x1122334455667788 0 Register.RAX sentinelEmitter).1 (by decide)).2⟩,
    ⟨by decide,
      ((C15_cursor_advances 0 0xDEADBEEF Register.R9 sentinelEmitter).2 (by decide)).2⟩⟩

/-- C16: two runs of `BindFunctionArgument` with the same target, bound value
and position, from states whose memory contents and cursor addresses are
arbitrary but whose remaining capacity `end - cursor` is the same, either both
abort or both complete; when both complete, the thirty bytes they have emitted
at their cursors are the same. -/
theorem C16_position_independent (F V p : Nat) (s1 s2 : Assembler)
    (hcap : s1.mCursorEnd - s1.mCursor = s2.mCursorEnd - s2.mCursor) :
    (BindFunctionArgument F V p s1).completes = (BindFunctionArgument F V p s2).completes ∧
    ((BindFunctionArgument F V p s1).completes = true →
      (BindFunctionArgument F V p s1).state.mem.readBytes s1.mCursor 30 =
        (BindFunctionArgument F V p s2).state.mem.readBytes s2.mCursor 30) := by
  have hc : (BindFunctionArgument F V p s1).completes =
      (BindFunctionArgument F V p s2).completes := by
    rw [BindFunctionArgument_completes, BindFunctionArgument_completes]
    have e : s1.mCursor + 45 ≤ s1.mCursorEnd ↔ s2.mCursor + 45 ≤ s2.mCursorEnd := by omega
    simp only [e]
  refine ⟨hc, fun h1 => ?_⟩
  have h2 := hc ▸ h1
  obtain ⟨r1, hr1⟩ := Outcome.eq_done_of_completes _ h1
  obtain ⟨r2, hr2⟩ := Outcome.eq_done_of_completes _ h2
  obtain ⟨m1, hm1, _, _, ht1⟩ := BindFunctionArgument_done F V p r1 s1 _ hr1
  obtain ⟨m2, hm2, _, _, ht2⟩ := BindFunctionArgument_done F V p r2 s2 _ hr2
  have hm : m1 = m2 := by omega
  subst hm
  rw [ht1, ht2]
  exact (Memory.readBytes_writeBytes (trampolineBytes F V m1) s1.mem s1.mCursor).trans
    (Memory.readBytes_writeBytes (trampolineBytes F V m1) s2.mem s2.mCursor).symm

/-- C16 at concrete inputs: the buffer at 4096 filled with `0xAA` and a
64-byte buffer at 70000 in a memory of zeros. -/
theorem C16_position_independent_witness :
    (sentinelEmitter.mCursorEnd - sentinelEmitter.mCursor =
        (Assembler.init (fun _ => 0) 70000 64).mCursorEnd -
          (Assembler.init (fun _ => 0) 70000 64).mCursor ∧
      (BindFunctionArgument 0x1122334455667788 0xDEADBEEF 3 sentinelEmitter).completes = true) ∧
    (BindFunctionArgument 0x1122334455667788 0xDEADBEEF 3 sentinelEmitter).state.mem.readBytes
        sentinelEmitter.mCursor 30 =
      (BindFunctionArgument 0x1122334455667788 0xDEADBEEF 3
        (Assembler.init (fun _ => 0) 70000 64)).state.mem.readBytes
        (Assembler.init (fun _ => 0) 70000 64).mCursor 30 :=
  ⟨⟨by decide, by decide⟩,
    (C16_position_independent 0x1122334455667788 0xDEADBEEF 3 sentinelEmitter
      (Assembler.init (fun _ => 0) 70000 64) (by decide)).2 (by decide)⟩

/-- C17: for every position `BindFunctionArgument` accepts, the thirty bytes
decode into seven instructions whose only destination registers are the
accumulator RAX and one of RSI, RDX, RCX; executing them leaves the
first-argument register RDI, and every register other than those two, with
the value the caller supplied, and the stack pointer where it was. -/
theorem C17_first_argument_untouched (F V p r : Nat) (s t : Assembler) (c : Cpu)
    (hsp : c.rsp < 2 ^ 64) (h : BindFunctionArgument F V p s = Outcome.done r t) :
    ∃ reg, (reg = Register.RSI ∨ reg = Register.RDX ∨ reg = Register.RCX) ∧
      argumentRegister p = some reg ∧
      (decodeAll 30 (t.mem.readBytes s.mCursor 30)).map (fun is => is.filterMap Instr.dest) =
        some [Register.RAX.ord, reg.ord] ∧
      ∃ c1, Cpu.exec (t.mem.readBytes s.mCursor 30) c = some c1 ∧
        c1.regs Register.RDI.ord = c.regs Register.RDI.ord ∧
        (∀ k, k ≠ Register.RAX.ord → k ≠ reg.ord → c1.regs k = c.regs k) ∧
        c1.rsp = c.rsp := by
  obtain ⟨m, hm, _, _, ht⟩ := BindFunctionArgument_done F V p r s t h
  subst ht
  have hall : (s.mem.writeBytes s.mCursor (trampolineBytes F V m)).readBytes s.mCursor 30 =
      trampolineBytes F V m :=
    Memory.readBytes_writeBytes (trampolineBytes F V m) s.mem s.mCursor
  have key : ∀ d, d < 8 → d ≠ 7 → d ≠ 0 → m = 0xC0 + d →
      (decodeAll 30 ((s.mem.writeBytes s.mCursor (trampolineBytes F V m)).readBytes
          s.mCursor 30)).map (fun is => is.filterMap Instr.dest) = some [0, d] ∧
      ∃ c1, Cpu.exec ((s.mem.writeBytes s.mCursor (trampolineBytes F V m)).readBytes
          s.mCursor 30) c = some c1 ∧
        c1.regs 7 = c.regs 7 ∧ (∀ k, k ≠ 0 → k ≠ d → c1.regs k = c.regs k) ∧
        c1.rsp = c.rsp := by
    intro d hd hd7 hd0 hmd
    obtain ⟨c1, e1, _, e3, _, _, e6⟩ := Cpu.exec_trampolineBytes c hsp F V d hd
    rw [hall, hmd]
    refine ⟨?_, c1, e1, e6 7 (by decide) (fun h7 => hd7 h7.symm), e6, e3⟩
    rw [decodeAll_trampolineBytes F V d hd]
    rfl
  rcases hm with ⟨hp, hm⟩ | ⟨hp, hm⟩ | ⟨hp, hm⟩ <;> subst hp <;> subst hm
  · exact ⟨Register.RSI, Or.inl rfl, rfl, key 6 (by decide) (by decide) (by decide) rfl⟩
  · exact ⟨Register.RDX, Or.inr (Or.inl rfl), rfl,
      key 2 (by decide) (by decide) (by decide) rfl⟩
  · exact ⟨Register.RCX, Or.inr (Or.inr rfl), rfl,
      key 1 (by decide) (by decide) (by decide) rfl⟩

/-- C17 at a concrete input: position 3 in the 64-byte buffer, run from a
processor state whose RDI holds 11. -/
theorem C17_first_argument_untouched_witness :
    (callerCpu.rsp < 2 ^ 64 ∧
      BindFunctionArgument 0x1122334455667788 0xDEADBEEF 3 sentinelEmitter =
        Outcome.done 4096
          (BindFunctionArgument 0x1122334455667788 0xDEADBEEF 3 sentinelEmitter).state) ∧
    ∃ reg, (reg = Register.RSI ∨ reg = Register.RDX ∨ reg = Register.RCX) ∧
      argumentRegister 3 = some reg ∧
      (decodeAll 30
          ((BindFunctionArgument 0x1122334455667788 0xDEADBEEF 3
            sentinelEmitter).state.mem.readBytes sentinelEmitter.mCursor 30)).map
        (fun is => is.filterMap Instr.dest) = some [Register.RAX.ord, reg.ord] ∧
      ∃ c1, Cpu.exec
          ((BindFunctionArgument 0x1122334455667788 0xDEADBEEF 3
            sentinelEmitter).state.mem.readBytes sentinelEmitter.mCursor 30) callerCpu = some c1 ∧
        c1.regs Register.RDI.ord = callerCpu.regs Register.RDI.ord ∧
        (∀ k, k ≠ Register.RAX.ord → k ≠ reg.ord → c1.regs k = callerCpu.regs k) ∧
        c1.rsp = callerCpu.rsp :=
  ⟨⟨by decide, rfl⟩,
    C17_first_argument_untouched 0x1122334455667788 0xDEADBEEF 3 4096 sentinelEmitter
      (BindFunctionArgument 0x1122334455667788 0xDEADBEEF 3 sentinelEmitter).state callerCpu
      (by decide) rfl⟩

/-- C18: `Return`, `Breakpoint`, `PushRax` and `PopRax` each write exactly one
byte at the cursor, `C3`, `CC`, `50` and `58` respectively, leave every other
byte as it was and advance the cursor by exactly 1; each completes exactly
when the advanced cursor keeps the margin.  `PopRegister` applied to the
accumulator is the same operation as `PopRax`. -/
theorem C18_single_byte_instructions (s : Assembler) :
    (∀ ob ∈ [(Return s, 0xC3), (Breakpoint s, 0xCC), (PushRax s, 0x50), (PopRax s, 0x58)],
      ob.1.state.mem s.mCursor = ob.2 ∧
      (∀ a, a ≠ s.mCursor → ob.1.state.mem a = s.mem a) ∧
      ob.1.state.mCursor = s.mCursor + 1 ∧
      ob.1.completes = decide (s.mCursor + 1 + 15 ≤ s.mCursorEnd)) ∧
    PopRegister Register.RAX s = PopRax s := by
  refine ⟨fun ob hob => ?_, ?_⟩
  · simp only [List.mem_cons, List.mem_singleton, List.not_mem_nil, or_false] at hob
    rcases hob with h | h | h | h <;> subst h
    · rw [Return_eq_emit]; exact emit_single _ s
    · rw [Breakpoint_eq_emit]; exact emit_single _ s
    · rw [PushRax_eq_emit]; exact emit_single _ s
    · rw [PopRax_eq_emit]; exact emit_single _ s
  · rw [PopRegister_eq_emit, PopRax_eq_emit]
    rfl

/-- C19 as stated fails on the number of capacity checks.  Position 1 is
accepted, so each abort below is one of a capacity check; in fresh buffers of
24, 27, 31, 35, 39, 43 and 44 bytes the generator aborts with the cursor at
seven different places, after the load, the move, each of the four pushes and
the return: there are seven checks, not six. -/
theorem C19_seven_checks_counterexample :
    [24, 27, 31, 35, 39, 43, 44].map (fun n =>
      ((BindFunctionArgument 0x1122334455667788 0xDEADBEEF 1 (freshEmitter n)).completes,
        (BindFunctionArgument 0x1122334455667788 0xDEADBEEF 1 (freshEmitter n)).state.mCursor -
          (freshEmitter n).mCursor)) =
      [(false, 10), (false, 13), (false, 17), (false, 21), (false, 25), (false, 29),
        (false, 30)] := by
  decide

/-- C19, amended: for an emitter with cursor `c` and end `e` and a position
the switch accepts, `BindFunctionArgument` completes if and only if
`c + 45 <= e`.  There are seven capacity checks, one after each instruction,
at the offsets 10, 13, 17, 21, 25, 29 and 30; the run stops at the first that
fails, and the one after the return byte is the strictest.  A fresh 45-byte
buffer suffices and a fresh 44-byte buffer always aborts. -/
theorem C19_completes_iff_forty_five (F V p : Nat) (s : Assembler)
    (hp : p = 1 ∨ p = 2 ∨ p = 3) :
    ((BindFunctionArgument F V p s).completes = true ↔ s.mCursor + 45 ≤ s.mCursorEnd) ∧
    ((BindFunctionArgument F V p s).state.mCursor =
      if s.mCursor + 10 + 15 ≤ s.mCursorEnd then
        if s.mCursor + 13 + 15 ≤ s.mCursorEnd then
          if s.mCursor + 17 + 15 ≤ s.mCursorEnd then
            if s.mCursor + 21 + 15 ≤ s.mCursorEnd then
              if s.mCursor + 25 + 15 ≤ s.mCursorEnd then
                if s.mCursor + 29 + 15 ≤ s.mCursorEnd then s.mCursor + 30
                else s.mCursor + 29
              else s.mCursor + 25
            else s.mCursor + 21
          else s.mCursor + 17
        else s.mCursor + 13
      else s.mCursor + 10) ∧
    (∀ mem a, (BindFunctionArgument F V p (Assembler.init mem a 45)).completes = true) ∧
    (∀ mem a, (BindFunctionArgument F V p (Assembler.init mem a 44)).completes = false) := by
  have hc : ∀ s : Assembler, (BindFunctionArgument F V p s).completes =
      decide (s.mCursor + 45 ≤ s.mCursorEnd) := by
    intro s
    rw [BindFunctionArgument_completes]
    simp [hp]
  refine ⟨by rw [hc]; simp, ?_, fun mem a => ?_, fun mem a => ?_⟩
  · rcases moveArgument_cases p with ⟨_, hm⟩ | ⟨_, hm⟩ | ⟨_, hm⟩ | ⟨hn, _⟩
    · exact BindFunctionArgument_cursor F V p _ s hm
    · exact BindFunctionArgument_cursor F V p _ s hm
    · exact BindFunctionArgument_cursor F V p _ s hm
    · omega
  · rw [hc]; simp [Assembler.init]
  · rw [hc]; simp [Assembler.init]

/-- C19 amended, at concrete inputs: position 2 in fresh buffers of 45 and of
44 bytes. -/
theorem C19_completes_iff_forty_five_witness :
    (2 = 1 ∨ 2 = 2 ∨ 2 = 3) ∧
    (BindFunctionArgument 0x1122334455667788 0xDEADBEEF 2 (freshEmitter 45)).completes = true ∧
    (BindFunctionArgument 0x1122334455667788 0xDEADBEEF 2 (freshEmitter 44)).completes = false :=
  ⟨by decide,
    (C19_completes_iff_forty_five 0x1122334455667788 0xDEADBEEF 2 (freshEmitter 45)
      (by decide)).2.2.1 _ _,
    (C19_completes_iff_forty_five 0x1122334455667788 0xDEADBEEF 2 (freshEmitter 44)
      (by decide)).2.2.2 _ _⟩

/-- C20: failure is not atomic.  Called with a position the switch rejects
and with `c + 25 <= e`, the load of the bound value has completed, and
`BindFunctionArgument` aborts in the very state the load has left: the ten
bytes `48 B8` and the value are at the cursor, the cursor has advanced by 10,
and no other byte of memory, so no byte of the move or of the jump, has been
written. -/
theorem C20_abort_after_load (F V p : Nat) (s : Assembler)
    (hp : ¬ (p = 1 ∨ p = 2 ∨ p = 3)) (hcap : s.mCursor + 25 ≤ s.mCursorEnd) :
    ∃ t, MoveImmediateToRax V s = Outcome.done () t ∧
      BindFunctionArgument F V p s = Outcome.abort t ∧
      t.mCursor = s.mCursor + 10 ∧
      t.mem.readBytes s.mCursor 10 =
        [0x48, 0xB8, V % 256, V / 256 % 256, V / 256 ^ 2 % 256, V / 256 ^ 3 % 256,
          V / 256 ^ 4 % 256, V / 256 ^ 5 % 256, V / 256 ^ 6 % 256, V / 256 ^ 7 % 256] ∧
      ∀ a, a < s.mCursor ∨ s.mCursor + 10 ≤ a → t.mem a = s.mem a := by
  have hload : (MoveImmediateToRax V s).completes = true := by
    rw [MoveImmediateToRax_eq_emit, emit_completes]
    simp only [bytes64, List.length_cons, List.length_nil, decide_eq_true_eq]
    omega
  obtain ⟨u, hu⟩ := Outcome.eq_done_of_completes _ hload
  have hrej : ∀ s1, BindFunctionArgument.moveArgument p s1 = Outcome.abort s1 := by
    rcases moveArgument_cases p with ⟨h1, _⟩ | ⟨h1, _⟩ | ⟨h1, _⟩ | ⟨_, h1⟩
    · exact absurd (Or.inl h1) hp
    · exact absurd (Or.inr (Or.inl h1)) hp
    · exact absurd (Or.inr (Or.inr h1)) hp
    · exact h1
  refine ⟨(MoveImmediateToRax V s).state, hu, ?_, ?_, ?_, ?_⟩
  · unfold BindFunctionArgument
    rw [hu]
    simp only [Outcome.bind, hrej, Outcome.state_done]
  · rw [MoveImmediateToRax_eq_emit, emit_state]
    rfl
  · rw [MoveImmediateToRax_eq_emit, emit_state]
    exact Memory.readBytes_writeBytes (0x48 :: 0xB8 :: bytes64 V) s.mem s.mCursor
  · intro a ha
    rw [MoveImmediateToRax_eq_emit, emit_state]
    exact Memory.writeBytes_outside (0x48 :: 0xB8 :: bytes64 V) s.mem s.mCursor a ha

/-- C20 at a concrete input: position 4 in the 64-byte buffer filled with the
sentinel; the byte at offset 10, where the move would start, is still the
sentinel. -/
theorem C20_abort_after_load_witness :
    (¬ (4 = 1 ∨ 4 = 2 ∨ 4 = 3) ∧ sentinelEmitter.mCursor + 25 ≤ sentinelEmitter.mCursorEnd) ∧
    (∃ t, MoveImmediateToRax 0xDEADBEEF sentinelEmitter = Outcome.done () t ∧
      BindFunctionArgument 0x1122334455667788 0xDEADBEEF 4 sentinelEmitter = Outcome.abort t ∧
      t.mCursor = sentinelEmitter.mCursor + 10 ∧
      t.mem.readBytes sentinelEmitter.mCursor 10 =
        [0x48, 0xB8, 0xDEADBEEF % 256, 0xDEADBEEF / 256 % 256, 0xDEADBEEF / 256 ^ 2 % 256,
          0xDEADBEEF / 256 ^ 3 % 256, 0xDEADBEEF / 256 ^ 4 % 256, 0xDEADBEEF / 256 ^ 5 % 256,
          0xDEADBEEF / 256 ^ 6 % 256, 0xDEADBEEF / 256 ^ 7 % 256] ∧
      ∀ a, a < sentinelEmitter.mCursor ∨ sentinelEmitter.mCursor + 10 ≤ a →
        t.mem a = sentinelEmitter.mem a) ∧
    (BindFunctionArgument 0x1122334455667788 0xDEADBEEF 4 sentinelEmitter).state.mem 4106 = 0xAA :=
  ⟨⟨by decide, by decide⟩,
    C20_abort_after_load 0x1122334455667788 0xDEADBEEF 4 sentinelEmitter (by decide) (by decide),
    by decide⟩

end recordreplay
end mozilla
